import Mathlib

/-!
SqlUiLexer: completion index, keyword sets and word separators.

A shallow embedding of `src/SqlUiLexer.cpp` (DB Browser for SQLite).

* A `QString` is a Lean `String`, whose characters stand for the `QChar`s of the
  `QString`; a `QStringList` and a `std::vector` are lists.
* `QualifiedTablesMap` (a `std::map` of schemas to a `std::map` of tables to a
  column list) is the list of its bindings in iteration order.
* The `QsciAPIs` object is the list of the entries added to it (`add` appends,
  `clear` empties).
* The function-local `static` strings of `keywords` are process-wide state: they
  live in `Statics`, where `none` means "not initialised yet".
* Everything the file reads from its surroundings (the settings store, the SQLite
  library, the translator, the Unicode case mapping of Qt outside ASCII, the enumerators
  of `ApiCompleterIconId` declared in the header, the base class `QsciLexerSQL`,
  `sqlb::escapeIdentifier`) is a field of `Host`.
* Calls queued with `Qt::QueuedConnection` wait in `queue`; each carries a ticket, the
  number of calls queued before it, which tells the queued calls apart in the history.
-/

namespace SqlUiLexer

/-! ## Strings -/

/-- `QString::toLower`, which follows the Unicode case mapping character by character:
inside ASCII that is `A`..`Z` to `a`..`z`; outside ASCII it is the mapping `lower` of the
Unicode tables of Qt, which may give several characters for one. -/
def toLowerUnicode (lower : Char → List Char) (q : String) : String :=
  ⟨q.data.flatMap (fun c => if c.toNat < 128 then [c.toLower] else lower c)⟩

/-- `QString::toUpper`, on the same terms as `toLowerUnicode`. -/
def toUpperUnicode (upper : Char → List Char) (q : String) : String :=
  ⟨q.data.flatMap (fun c => if c.toNat < 128 then [c.toUpper] else upper c)⟩

/-- The lower case of an ASCII text: `A`..`Z` become `a`..`z`. On ASCII text this is what
`toLowerUnicode` gives under every mapping; it serves to state what the code does with the
catalogs of this file, which are ASCII. -/
def toLower (s : String) : String := ⟨s.data.map Char.toLower⟩

/-- The upper case of an ASCII text: `a`..`z` become `A`..`Z`; the counterpart of `toLower`
for `toUpperUnicode`. -/
def toUpper (s : String) : String := ⟨s.data.map Char.toUpper⟩

/-- `QString::number(int)`: the decimal rendering of an integer. -/
def number (n : Int) : String := toString n

/-- `QStringList::join(sep)`. -/
def join (sep : String) : List String → String
  | [] => ""
  | [x] => x
  | x :: y :: rest => x ++ sep ++ join sep (y :: rest)

/-- The NUL character that ends a C string. -/
def nul : Char := Char.ofNat 0

/-- The `std::string` built from `q.toUtf8().constData()`: the constructor reads a
`const char*`, so the text stops before the first NUL character. -/
def constData (q : String) : String := ⟨q.data.takeWhile (fun c => c != nul)⟩

/-- `std::reverse(q.begin(), q.end())` on a `QString`. -/
def reverse (q : String) : String := ⟨q.data.reverse⟩

/-! ## The surroundings -/

/-- Everything `SqlUiLexer.cpp` reads from outside the file. -/
structure Host where
  /-- `Settings::getValue("editor", "upper_keywords").toBool()` -/
  upper_keywords : Bool
  /-- `sqlite3_libversion_number()` -/
  libversion_number : Int
  /-- `sqlite3_compileoption_used(name)` -/
  compileoption_used : String → Int
  /-- `tr(text)`: the translation of a source text. -/
  tr : String → String
  /-- The lower-case mapping of Qt for a character outside ASCII. -/
  unicodeLower : Char → List Char
  /-- The upper-case mapping of Qt for a character outside ASCII. -/
  unicodeUpper : Char → List Char
  /-- Enumerators of `SqlUiLexer::ApiCompleterIconId` (declared in `SqlUiLexer.h`). -/
  ApiCompleterIconIdKeyword : Int
  ApiCompleterIconIdFunction : Int
  ApiCompleterIconIdTable : Int
  ApiCompleterIconIdColumn : Int
  ApiCompleterIconIdSchema : Int
  /-- `QsciLexerSQL::keywords(set)`; `none` is the null pointer. -/
  baseKeywords : Int → Option String
  /-- `sqlb::escapeIdentifier` under the configured identifier quoting. -/
  escapeIdentifier : String → String

/-! ## Capability gate -/

def SQLITE_VER_NUMBER_3_35 : Int := 3035000

/-- `enabledMathFunctions()`. -/
def enabledMathFunctions (env : Host) : Bool :=
  decide (env.libversion_number ≥ SQLITE_VER_NUMBER_3_35) &&
    (decide (env.compileoption_used "SQLITE_OMIT_COMPILEOPTION_DIAGS" = 1) ||
     decide (env.compileoption_used "SQLITE_ENABLE_MATH_FUNCTIONS" = 1))

/-! ## Catalogs -/

/-- `SqlUiLexer::keywordPatterns`. -/
def keywordPatterns : List String := [
  -- Keywords
  "ABORT", "ACTION", "ADD", "AFTER", "ALL",
  "ALTER", "ALWAYS", "ANALYZE", "AND", "ANY", "AS", "ASC",
  "ATTACH", "AUTOINCREMENT", "BEFORE", "BEGIN", "BETWEEN",
  "BY", "CASCADE", "CASE", "CAST", "CHECK",
  "COLLATE", "COLUMN", "COMMIT", "CONFLICT", "CONSTRAINT",
  "CREATE", "CROSS", "CURRENT", "CURRENT_DATE", "CURRENT_TIME", "CURRENT_TIMESTAMP",
  "DATABASE", "DEFAULT", "DEFERRABLE", "DEFERRED", "DELETE",
  "DESC", "DETACH", "DISTINCT", "DO", "DROP", "EACH",
  "ELSE", "END", "ESCAPE", "EXCEPT", "EXCLUSIVE",
  "EXISTS", "EXPLAIN", "FAIL", "FILTER", "FOLLOWING", "FOR", "FOREIGN",
  "FROM", "FULL", "GENERATED", "GLOB", "GROUP", "HAVING",
  "IF", "IGNORE", "IMMEDIATE", "IN", "INDEX",
  "INDEXED", "INITIALLY", "INNER", "INSERT", "INSTEAD",
  "INTERSECT", "INTO", "IS", "ISNULL", "JOIN",
  "KEY", "LEFT", "LIKE", "LIMIT", "MATCH",
  "NATURAL", "NO", "NOT", "NOTHING", "NOTNULL", "NULL",
  "OF", "OFFSET", "ON", "OR", "ORDER",
  "OUTER", "OVER", "PARTITION", "PLAN", "PRAGMA", "PRECEDING", "PRIMARY", "QUERY",
  "RAISE", "RANGE", "RECURSIVE", "REFERENCES", "REGEXP", "REINDEX", "RELEASE",
  "RENAME", "REPLACE", "RESTRICT", "RETURNING", "RIGHT", "ROLLBACK",
  "ROWID", "ROW", "ROWS", "SAVEPOINT", "SELECT", "SET", "STORED", "STRICT", "TABLE",
  "TEMP", "TEMPORARY", "THEN", "TO", "TRANSACTION",
  "TRIGGER", "UNBOUNDED", "UNION", "UNIQUE", "UPDATE", "USING",
  "VACUUM", "VALUES", "VIEW", "VIRTUAL", "WHEN",
  "WHERE", "WINDOW", "WITH", "WITHOUT",
  -- Data types
  "INT", "INTEGER", "REAL", "TEXT", "BLOB", "NUMERIC", "CHAR"
]

/-- The initialiser of `functionPatterns` in `setupAutoCompletion`: each name with the
source text handed to `tr`. -/
def coreFunctionPatterns : List (String × String) := [
  -- Core functions
  ("abs", "(X) The abs(X) function returns the absolute value of the numeric argument X."),
  ("changes", "() The changes() function returns the number of database rows that were changed or inserted or deleted by the most recently completed INSERT, DELETE, or UPDATE statement."),
  ("char", "(X1,X2,...) The char(X1,X2,...,XN) function returns a string composed of characters having the unicode code point values of integers X1 through XN, respectively. "),
  ("coalesce", "(X,Y,...) The coalesce() function returns a copy of its first non-NULL argument, or NULL if all arguments are NULL"),
  ("concat", "(X,...) The concat(...) function returns a string which is the concatenation of the string representation of all of its non-NULL arguments. If all arguments are NULL, then concat() returns an empty string."),
  ("concat_ws", "(SEP,X,...) The concat_ws(SEP,...) function returns a string that is the concatenation of all non-null arguments beyond the first argument, using the text value of the first argument as a separator."),
  ("format", "(FORMAT,...) The format(FORMAT,...) SQL function works like the sqlite3_mprintf() C-language function and the printf() function from the standard C library."),
  ("glob", "(X,Y) The glob(X,Y) function is equivalent to the expression \"Y GLOB X\"."),
  ("ifnull", "(X,Y) The ifnull() function returns a copy of its first non-NULL argument, or NULL if both arguments are NULL."),
  ("instr", "(X,Y) The instr(X,Y) function finds the first occurrence of string Y within string X and returns the number of prior characters plus 1, or 0 if Y is nowhere found within X."),
  ("hex", "(X) The hex() function interprets its argument as a BLOB and returns a string which is the upper-case hexadecimal rendering of the content of that blob."),
  ("iif", "(X,Y,Z) The iif(X,Y,Z) function returns the value Y if X is true, and Z otherwise."),
  ("last_insert_rowid", "() The last_insert_rowid() function returns the ROWID of the last row insert from the database connection which invoked the function."),
  ("length", "(X) For a string value X, the length(X) function returns the number of characters (not bytes) in X prior to the first NUL character."),
  ("like", "(X,Y) The like() function is used to implement the \"Y LIKE X\" expression."),
  ("like", "(X,Y,Z) The like() function is used to implement the \"Y LIKE X ESCAPE Z\" expression."),
  ("likelihood", "(X,Y) The purpose of the likelihood(X,Y) function is to provide a hint to the query planner that the argument X is a boolean that is true with a probability of approximately Y."),
  ("likely", "(X) The purpose of the likely(X) function is to provide a hint to the query planner that the argument X is a boolean value that is usually true."),
  ("load_extension", "(X) The load_extension(X) function loads SQLite extensions out of the shared library file named X.\nUse of this function must be authorized from Preferences."),
  ("load_extension", "(X,Y) The load_extension(X) function loads SQLite extensions out of the shared library file named X using the entry point Y.\nUse of this function must be authorized from Preferences."),
  ("lower", "(X) The lower(X) function returns a copy of string X with all ASCII characters converted to lower case."),
  ("ltrim", "(X) ltrim(X) removes spaces from the left side of X."),
  ("ltrim", "(X,Y) The ltrim(X,Y) function returns a string formed by removing any and all characters that appear in Y from the left side of X."),
  ("max", "(X,Y,...) The multi-argument max() function returns the argument with the maximum value, or return NULL if any argument is NULL."),
  ("min", "(X,Y,...) The multi-argument min() function returns the argument with the minimum value."),
  ("nullif", "(X,Y) The nullif(X,Y) function returns its first argument if the arguments are different and NULL if the arguments are the same."),
  ("octet_length", "(X) The octet_length(X) function returns the number of bytes in the encoding of X."),
  ("printf", "(FORMAT,...) The printf(FORMAT,...) SQL function works like the sqlite3_mprintf() C-language function and the printf() function from the standard C library."),
  ("quote", "(X) The quote(X) function returns the text of an SQL literal which is the value of its argument suitable for inclusion into an SQL statement."),
  ("random", "() The random() function returns a pseudo-random integer between -9223372036854775808 and +9223372036854775807."),
  ("randomblob", "(N) The randomblob(N) function return an N-byte blob containing pseudo-random bytes."),
  ("replace", "(X,Y,Z) The replace(X,Y,Z) function returns a string formed by substituting string Z for every occurrence of string Y in string X."),
  ("round", "(X) The round(X) function returns a floating-point value X rounded to zero digits to the right of the decimal point."),
  ("round", "(X,Y) The round(X,Y) function returns a floating-point value X rounded to Y digits to the right of the decimal point."),
  ("rtrim", "(X) rtrim(X) removes spaces from the right side of X."),
  ("rtrim", "(X,Y) The rtrim(X,Y) function returns a string formed by removing any and all characters that appear in Y from the right side of X."),
  ("soundex", "(X) The soundex(X) function returns a string that is the soundex encoding of the string X."),
  ("substr", "(X,Y) substr(X,Y) returns all characters through the end of the string X beginning with the Y-th."),
  ("substr", "(X,Y,Z) The substr(X,Y,Z) function returns a substring of input string X that begins with the Y-th character and which is Z characters long."),
  ("total_changes", "() The total_changes() function returns the number of row changes caused by INSERT, UPDATE or DELETE statements since the current database connection was opened."),
  ("trim", "(X) trim(X) removes spaces from both ends of X."),
  ("trim", "(X,Y) The trim(X,Y) function returns a string formed by removing any and all characters that appear in Y from both ends of X."),
  ("typeof", "(X) The typeof(X) function returns a string that indicates the datatype of the expression X."),
  ("unhex", "(X) The unhex(X) function returns a BLOB value which is the decoding of the hexadecimal string X. X must be a pure hexadecimal string."),
  ("unhex", "(X,Y) The unhex(X,Y) function returns a BLOB value which is the decoding of the hexadecimal string X. If X contains any characters that are not hexadecimal digits and which are not in Y, then unhex(X,Y) returns NULL."),
  ("unicode", "(X) The unicode(X) function returns the numeric unicode code point corresponding to the first character of the string X."),
  ("unlikely", "(X) The purpose of the unlikely(X) function is to provide a hint to the query planner that the argument X is a boolean value that is usually not true."),
  ("upper", "(X) The upper(X) function returns a copy of input string X in which all lower-case ASCII characters are converted to their upper-case equivalent."),
  ("zeroblob", "(N) The zeroblob(N) function returns a BLOB consisting of N bytes of 0x00."),
  -- Date and time functions
  ("date", "(timestring,modifier,modifier,...)"),
  ("time", "(timestring,modifier,modifier,...)"),
  ("datetime", "(timestring,modifier,modifier,...)"),
  ("julianday", "(timestring,modifier,modifier,...)"),
  ("strftime", "(format,timestring,modifier,modifier,...)"),
  -- Aggregate functions
  ("avg", "(X) The avg() function returns the average value of all non-NULL X within a group."),
  ("count", "(X) The count(X) function returns a count of the number of times that X is not NULL in a group."),
  ("group_concat", "(X) The group_concat() function returns a string which is the concatenation of all non-NULL values of X."),
  ("group_concat", "(X,Y) The group_concat() function returns a string which is the concatenation of all non-NULL values of X. If parameter Y is present then it is used as the separator between instances of X."),
  ("string_agg", "(X,Y) string_agg(X,Y) function is an alias for group_concat(X,Y). String_agg() is compatible with PostgreSQL and SQL-Server and group_concat() is compatible with MySQL."),
  ("max", "(X) The max() aggregate function returns the maximum value of all values in the group."),
  ("min", "(X) The min() aggregate function returns the minimum non-NULL value of all values in the group."),
  ("sum", "(X) The sum() and total() aggregate functions return sum of all non-NULL values in the group."),
  ("total", "(X) The sum() and total() aggregate functions return sum of all non-NULL values in the group."),
  -- Window functions
  ("row_number", "() The number of the row within the current partition. Rows are numbered starting from 1 in the order defined by the ORDER BY clause in the window definition, or in arbitrary order otherwise."),
  ("rank", "() The row_number() of the first peer in each group - the rank of the current row with gaps. If there is no ORDER BY clause, then all rows are considered peers and this function always returns 1."),
  ("dense_rank", "() The number of the current row's peer group within its partition - the rank of the current row without gaps. Partitions are numbered starting from 1 in the order defined by the ORDER BY clause in the window definition. If there is no ORDER BY clause, then all rows are considered peers and this function always returns 1. "),
  ("percent_rank", "() Despite the name, this function always returns a value between 0.0 and 1.0 equal to (rank - 1)/(partition-rows - 1), where rank is the value returned by built-in window function rank() and partition-rows is the total number of rows in the partition. If the partition contains only one row, this function returns 0.0. "),
  ("cume_dist", "() The cumulative distribution. Calculated as row-number/partition-rows, where row-number is the value returned by row_number() for the last peer in the group and partition-rows the number of rows in the partition."),
  ("ntile", "(N) Argument N is handled as an integer. This function divides the partition into N groups as evenly as possible and assigns an integer between 1 and N to each group, in the order defined by the ORDER BY clause, or in arbitrary order otherwise. If necessary, larger groups occur first. This function returns the integer value assigned to the group that the current row is a part of."),
  ("lag", "(expr) Returns the result of evaluating expression expr against the previous row in the partition. Or, if there is no previous row (because the current row is the first), NULL."),
  ("lag", "(expr,offset) If the offset argument is provided, then it must be a non-negative integer. In this case the value returned is the result of evaluating expr against the row offset rows before the current row within the partition. If offset is 0, then expr is evaluated against the current row. If there is no row offset rows before the current row, NULL is returned."),
  ("lag", "(expr,offset,default) If default is also provided, then it is returned instead of NULL if the row identified by offset does not exist."),
  ("lead", "(expr) Returns the result of evaluating expression expr against the next row in the partition. Or, if there is no next row (because the current row is the last), NULL."),
  ("lead", "(expr,offset) If the offset argument is provided, then it must be a non-negative integer. In this case the value returned is the result of evaluating expr against the row offset rows after the current row within the partition. If offset is 0, then expr is evaluated against the current row. If there is no row offset rows after the current row, NULL is returned."),
  ("lead", "(expr,offset,default) If default is also provided, then it is returned instead of NULL if the row identified by offset does not exist."),
  ("first_value", "(expr) This built-in window function calculates the window frame for each row in the same way as an aggregate window function. It returns the value of expr evaluated against the first row in the window frame for each row."),
  ("last_value", "(expr) This built-in window function calculates the window frame for each row in the same way as an aggregate window function. It returns the value of expr evaluated against the last row in the window frame for each row."),
  ("nth_value", "(expr,N) This built-in window function calculates the window frame for each row in the same way as an aggregate window function. It returns the value of expr evaluated against the row N of the window frame. Rows are numbered within the window frame starting from 1 in the order defined by the ORDER BY clause if one is present, or in arbitrary order otherwise. If there is no Nth row in the partition, then NULL is returned.")
]

/-- The entries inserted at the end of `functionPatterns` when `enabledMathFunctions()`
holds, each name with the source text handed to `tr`. -/
def mathFunctionPatterns : List (String × String) := [
  -- Math functions introduced from SQLite 3.35
  ("acos", "(X) Return the arccosine of X. The result is in radians."),
  ("acosh", "(X) Return the hyperbolic arccosine of X."),
  ("asin", "(X) Return the arcsine of X. The result is in radians."),
  ("asinh", "(X) Return the hyperbolic arcsine of X."),
  ("atan", "(X) Return the arctangent of X. The result is in radians."),
  ("atan2", "(X,Y) Return the arctangent of Y/X. The result is in radians. The result is placed into correct quadrant depending on the signs of X and Y."),
  ("atanh", "(X) Return the hyperbolic arctangent of X."),
  ("ceil", "(X) Return the first representable integer value greater than or equal to X. For positive values of X, this routine rounds away from zero. For negative values of X, this routine rounds toward zero."),
  ("ceiling", "(X) Return the first representable integer value greater than or equal to X. For positive values of X, this routine rounds away from zero. For negative values of X, this routine rounds toward zero."),
  ("cos", "(X) Return the cosine of X. X is in radians."),
  ("cosh", "(X) Return the hyperbolic cosine of X."),
  ("degrees", "(X) Convert value X from radians into degrees."),
  ("exp", "(X) Compute e (Euler's number, approximately 2.71828182845905) raised to the power X."),
  ("floor", "(X) Return the first representable integer value less than or equal to X. For positive numbers, this function rounds toward zero. For negative numbers, this function rounds away from zero."),
  ("ln", "(X) Return the natural logarithm of X."),
  ("log", "(B,X) Return the base-B logarithm of X."),
  ("log", "(X) Return the base-10 logarithm for X."),
  ("log10", "(X) Return the base-10 logarithm for X."),
  ("log2", "(X) Return the logarithm base-2 for the number X."),
  ("mod", "(X,Y) Return the remainder after dividing X by Y."),
  ("pi", "() Return an approximation for π."),
  ("pow", "(X,Y) Compute X raised to the power Y."),
  ("power", "(X,Y) Compute X raised to the power Y."),
  ("radians", "(X) Convert X from degrees into radians."),
  ("sin", "(X) Return the sine of X. X is in radians."),
  ("sinh", "(X) Return the hyperbolic sine of X."),
  ("sqrt", "(X) Return the square root of X. NULL is returned if X is negative."),
  ("tan", "(X) Return the tangent of X. X is in radians."),
  ("tanh", "(X) Return the hyperbolic tangent of X."),
  ("trunc", "(X) Return the representable integer in between X and 0 (inclusive) that is furthest away from zero. Or, in other words, return the integer part of X, rounding toward zero.")
]

/-- The local `functionPatterns` of `setupAutoCompletion` once it is complete: the
translated core catalog, followed by the translated math catalog when the gate holds. -/
def functionPatterns (env : Host) : List (String × String) :=
  let functionPatterns := coreFunctionPatterns.map (fun p => (p.1, env.tr p.2))
  if enabledMathFunctions env then
    functionPatterns ++ mathFunctionPatterns.map (fun p => (p.1, env.tr p.2))
  else
    functionPatterns

/-! ## State -/

/-- One step of the history of the completion object and of the event queue. A queued
call is told apart from the others by its ticket, the number of calls queued on the object
before it. -/
inductive Event where
  /-- `autocompleteApi->clear()` -/
  | apiClear
  /-- `autocompleteApi->add(entry)` -/
  | apiAdd (entry : String)
  /-- `QMetaObject::invokeMethod(this, ..., Qt::QueuedConnection)` queues the call
  `ticket` -/
  | queued (ticket : Nat)
  /-- `autocompleteApi->prepare()`, run by the event loop for the queued call `ticket` -/
  | apiPrepare (ticket : Nat)
  deriving DecidableEq, Repr

/-- A call waiting on the event queue of the lexer. The only closure this file queues
is the one that calls `autocompleteApi->prepare()`; `ticket` is the number of calls queued
on the object before this one. -/
inductive QueuedCall where
  | prepare (ticket : Nat)
  deriving DecidableEq, Repr

/-- The ticket of a queued call. -/
def QueuedCall.ticket : QueuedCall → Nat
  | QueuedCall.prepare ticket => ticket

/-- The function-local statics of `SqlUiLexer::keywords`. -/
structure Statics where
  sqliteKeywords : Option String
  functions : Option String
  tables : String
  deriving DecidableEq, Repr

/-- The statics of a process in which `keywords` has not run yet. -/
def Statics.fresh : Statics := ⟨none, none, ""⟩

/-- A lexer object together with the process-wide statics and the event queue. -/
structure Lexer where
  /-- the raw entries of `autocompleteApi` -/
  autocompleteApi : List String
  listTables : List String
  listFunctions : List String
  foldComments : Bool
  foldCompact : Bool
  /-- calls queued on the object, oldest first -/
  queue : List QueuedCall
  /-- number of calls queued on the object so far -/
  posted : Nat
  /-- history of the calls made on `autocompleteApi` and on the queue -/
  trace : List Event
  statics : Statics
  deriving DecidableEq, Repr

/-! ## Operations -/

/-- `autocompleteApi->add(entry)`. -/
def apiAdd (s : Lexer) (entry : String) : Lexer :=
  { s with autocompleteApi := s.autocompleteApi ++ [entry],
           trace := s.trace ++ [Event.apiAdd entry] }

/-- `autocompleteApi->clear()`. -/
def apiClear (s : Lexer) : Lexer :=
  { s with autocompleteApi := [], trace := s.trace ++ [Event.apiClear] }

/-- `SqlUiLexer::setupAutoCompletion`. -/
def setupAutoCompletion (env : Host) (s : Lexer) : Lexer :=
  let upperKeywords := env.upper_keywords
  let s := keywordPatterns.foldl (fun s keyword =>
    if upperKeywords then
      apiAdd s (keyword ++ "?" ++ number env.ApiCompleterIconIdKeyword)
    else
      apiAdd s (toLowerUnicode env.unicodeLower keyword ++ "?" ++
        number env.ApiCompleterIconIdKeyword)) s
  let functionPatterns := functionPatterns env
  let s := { s with listFunctions := [] }
  let s := functionPatterns.foldl (fun s keyword =>
    let s := apiAdd s (keyword.1 ++ "?" ++ number env.ApiCompleterIconIdFunction ++ keyword.2)
    let s := apiAdd s (toUpperUnicode env.unicodeUpper keyword.1 ++ "?" ++
      number env.ApiCompleterIconIdFunction ++ keyword.2)
    { s with listFunctions := s.listFunctions ++ [keyword.1] }) s
  { s with queue := s.queue ++ [QueuedCall.prepare s.posted],
           trace := s.trace ++ [Event.queued s.posted],
           posted := s.posted + 1 }

/-- The constructor `SqlUiLexer::SqlUiLexer`, in a process whose statics are `st`. -/
def construct (env : Host) (st : Statics) : Lexer :=
  let s : Lexer :=
    { autocompleteApi := [], listTables := [], listFunctions := [],
      foldComments := false, foldCompact := true, queue := [], posted := 0, trace := [],
      statics := st }
  let s := setupAutoCompletion env s
  let s := { s with foldComments := true }
  { s with foldCompact := false }

/-- `QualifiedTablesMap`: schema name, then table name, then the columns, in iteration
order. -/
abbrev QualifiedTablesMap := List (String × List (String × List String))

/-- `SqlUiLexer::setTableNames`. -/
def setTableNames (env : Host) (tables : QualifiedTablesMap) (s : Lexer) : Lexer :=
  let s := apiClear s
  let s := { s with listTables := [] }
  let s := tables.foldl (fun s itSchemas =>
    itSchemas.2.foldl (fun s itTables =>
      let s := apiAdd s (itSchemas.1 ++ "?" ++ number env.ApiCompleterIconIdSchema ++ "." ++
                         itTables.1 ++ "?" ++ number env.ApiCompleterIconIdTable)
      let s := itTables.2.foldl (fun s field =>
        let s := apiAdd s (itTables.1 ++ "?" ++ number env.ApiCompleterIconIdTable ++ "." ++
                           field ++ "?" ++ number env.ApiCompleterIconIdColumn)
        apiAdd s (field ++ "?" ++ number env.ApiCompleterIconIdColumn)) s
      { s with listTables := s.listTables ++ [itTables.1] }) s) s
  setupAutoCompletion env s

/-- `SqlUiLexer::keywords`: the returned C string (`none` for a null pointer) and the
state after the call. The first two statics are initialised by the first call only. -/
def keywords (env : Host) (set : Int) (s : Lexer) : Option String × Lexer :=
  let sqliteKeywords :=
    match s.statics.sqliteKeywords with
    | some v => v
    | none => constData (toLowerUnicode env.unicodeLower (join " " keywordPatterns))
  let functions :=
    match s.statics.functions with
    | some v => v
    | none => constData (join " " s.listFunctions)
  let s := { s with statics :=
    { s.statics with sqliteKeywords := some sqliteKeywords, functions := some functions } }
  if set = 1 then
    (some sqliteKeywords, s)
  else if set = 6 then
    let tables := constData (toLowerUnicode env.unicodeLower (join " " s.listTables))
    (some tables, { s with statics := { s.statics with tables := tables } })
  else if set = 7 then
    (some functions, s)
  else
    (env.baseKeywords set, s)

/-- `SqlUiLexer::autoCompletionWordSeparators`. -/
def autoCompletionWordSeparators (env : Host) : List String :=
  let wl : List String := []
  let escapeSeparator := env.escapeIdentifier "."
  let escapeSeparator := reverse escapeSeparator
  wl ++ ["."] ++ [escapeSeparator]

/-- `SqlUiLexer::caseSensitive`. -/
def caseSensitive : Bool := false

/-- The event loop delivers the oldest queued call, which runs
`autocompleteApi->prepare()`. -/
def processEvent (s : Lexer) : Lexer :=
  match s.queue with
  | [] => s
  | QueuedCall.prepare ticket :: rest =>
    { s with queue := rest, trace := s.trace ++ [Event.apiPrepare ticket] }


/-! ## Closed forms used to state the properties -/

/-- The entry the keyword loop adds for one keyword. -/
def keywordEntry (env : Host) (k : String) : String :=
  (if env.upper_keywords then k else toLower k) ++ "?" ++ number env.ApiCompleterIconIdKeyword

/-- The entries the keyword loop of `setupAutoCompletion` adds, in order. -/
def keywordEntries (env : Host) : List String :=
  keywordPatterns.map (keywordEntry env)

/-- The two entries the function loop adds for one catalog entry. -/
def functionEntry (env : Host) (p : String × String) : List String :=
  [p.1 ++ "?" ++ number env.ApiCompleterIconIdFunction ++ p.2,
   toUpper p.1 ++ "?" ++ number env.ApiCompleterIconIdFunction ++ p.2]

/-- The entries the function loop adds for a catalog, in order. -/
def functionEntries (env : Host) (catalog : List (String × String)) : List String :=
  catalog.flatMap (functionEntry env)

/-- The completion entry `schema.table`. -/
def schemaTableEntry (env : Host) (schema table : String) : String :=
  schema ++ "?" ++ number env.ApiCompleterIconIdSchema ++ "." ++
    table ++ "?" ++ number env.ApiCompleterIconIdTable

/-- The completion entry `table.column`. -/
def tableColumnEntry (env : Host) (table column : String) : String :=
  table ++ "?" ++ number env.ApiCompleterIconIdTable ++ "." ++
    column ++ "?" ++ number env.ApiCompleterIconIdColumn

/-- The completion entry of a bare column. -/
def columnEntry (env : Host) (column : String) : String :=
  column ++ "?" ++ number env.ApiCompleterIconIdColumn

/-- The entries the loops of `setTableNames` add for a whole map, in order. -/
def tableEntries (env : Host) (tables : QualifiedTablesMap) : List String :=
  tables.flatMap (fun itSchemas =>
    itSchemas.2.flatMap (fun itTables =>
      schemaTableEntry env itSchemas.1 itTables.1 ::
        itTables.2.flatMap (fun field =>
          [tableColumnEntry env itTables.1 field, columnEntry env field])))

/-- The table names of a map, one per (schema, table) pair, in iteration order. -/
def tableNames (tables : QualifiedTablesMap) : List String :=
  tables.flatMap (fun itSchemas => itSchemas.2.map Prod.fst)

/-- The number of entries the loops of `setTableNames` add: one per table and two per
column. -/
def tableEntryCount (tables : QualifiedTablesMap) : Nat :=
  (tables.map (fun itSchemas =>
    (itSchemas.2.map (fun itTables => 1 + 2 * itTables.2.length)).sum)).sum

/-- A call made on a constructed lexer. -/
inductive Call where
  | setTableNames (tables : QualifiedTablesMap)
  | keywords (set : Int)
  | processEvent

/-- The state after one call. -/
def step (env : Host) (s : Lexer) : Call → Lexer
  | Call.setTableNames tables => setTableNames env tables s
  | Call.keywords set => (keywords env set s).2
  | Call.processEvent => processEvent s

/-- The state after a sequence of calls, made in order. -/
def run (env : Host) (calls : List Call) (s : Lexer) : Lexer :=
  calls.foldl (step env) s

/-- The map of the most recent `setTableNames` among `calls`, or `tables` when there is
none. -/
def lastTables (tables : QualifiedTablesMap) (calls : List Call) : QualifiedTablesMap :=
  calls.foldl (fun current c =>
    match c with
    | Call.setTableNames t => t
    | _ => current) tables

/-- The tickets of the calls queued in a history, in order. -/
def postedTickets (trace : List Event) : List Nat :=
  trace.filterMap (fun e =>
    match e with
    | Event.queued ticket => some ticket
    | _ => none)

/-- The tickets of the queued calls the event loop has run in a history, in order. -/
def deliveredTickets (trace : List Event) : List Nat :=
  trace.filterMap (fun e =>
    match e with
    | Event.apiPrepare ticket => some ticket
    | _ => none)

/-- The number of `setTableNames` calls among `calls`. -/
def countSetTableNames (calls : List Call) : Nat :=
  (calls.filter (fun c =>
    match c with
    | Call.setTableNames _ => true
    | _ => false)).length

/-- The history of the calls that add `entries` to the completion object, in order. -/
def addEvents (entries : List String) : List Event :=
  entries.map Event.apiAdd

/-- A call other than `setTableNames`. -/
def Call.keepsTables : Call → Bool
  | Call.setTableNames _ => false
  | _ => true

/-- Modelled from the spec: the identifier quoting behind `sqlb::escapeIdentifier`, which
is defined outside this file. The spec has identifiers "wrapped in possibly-asymmetric
quote characters (e.g. bracket-style quoting)". -/
structure Quoting where
  opening : Char
  closing : Char
  deriving DecidableEq, Repr

/-- Modelled from the spec: `sqlb::escapeIdentifier`, which is defined outside this
file: "the configured quoting" of an identifier wraps it in the two quote characters. -/
def escapeIdentifier (q : Quoting) (id : String) : String :=
  String.singleton q.opening ++ id ++ String.singleton q.closing

/-- Modelled from the spec: bracket-style quoting. -/
def squareBrackets : Quoting := ⟨'[', ']'⟩

/-- Modelled from the spec: a symmetric quoting, with double quotes. -/
def doubleQuotes : Quoting := ⟨'"', '"'⟩

/-- A host with SQLite 3.35 and its math functions, upper-case keywords, bracket quoting,
an identity translator, five distinct icon ids, and a lower-case mapping that knows the
capital letters A with diaeresis, E with acute, sigma and omega. -/
def sampleHost : Host :=
  { upper_keywords := true
    libversion_number := 3035000
    compileoption_used := fun n => if n = "SQLITE_ENABLE_MATH_FUNCTIONS" then 1 else 0
    tr := fun text => text
    unicodeLower := fun c =>
      if c = Char.ofNat 196 then [Char.ofNat 228]
      else if c = Char.ofNat 201 then [Char.ofNat 233]
      else if c = Char.ofNat 931 then [Char.ofNat 963]
      else if c = Char.ofNat 937 then [Char.ofNat 969]
      else [c]
    unicodeUpper := fun c => [c]
    ApiCompleterIconIdKeyword := 1
    ApiCompleterIconIdFunction := 2
    ApiCompleterIconIdTable := 3
    ApiCompleterIconIdColumn := 4
    ApiCompleterIconIdSchema := 5
    baseKeywords := fun set => if set = 5 then some "dbms_output" else none
    escapeIdentifier := escapeIdentifier squareBrackets }

/-- The statics of `keywords` are in step with the catalogs: `listFunctions` holds the
names of the function catalog, and each of the two write-once statics is either not
initialised or holds what its initialiser computes. -/
def CachesCurrent (env : Host) (s : Lexer) : Prop :=
  s.listFunctions = (functionPatterns env).map Prod.fst ∧
    (s.statics.sqliteKeywords = none ∨
      s.statics.sqliteKeywords = some (constData (toLower (join " " keywordPatterns)))) ∧
    (s.statics.functions = none ∨
      s.statics.functions =
        some (constData (join " " ((functionPatterns env).map Prod.fst))))

/-- A table name with a NUL character between `Ab` and `Cd`. -/
def nulName : String :=
  String.mk [Char.ofNat 65, Char.ofNat 98, nul, Char.ofNat 67, Char.ofNat 100]

/-- A map with the single schema `main` and the single table `nulName`, without
columns. -/
def nulTables : QualifiedTablesMap := [("main", [(nulName, [])])]

/-- The character between the text of an entry and its icon id. -/
def marker : Char := '?'

/-! ## Case mapping on ASCII text -/

theorem join_forall (P : Char → Prop) (hsp : P (Char.ofNat 32)) (l : List String)
    (h : ∀ n ∈ l, ∀ c ∈ n.data, P c) : ∀ c ∈ (join " " l).data, P c := by
  induction l with
  | nil => simp [join]
  | cons x rest ih =>
    cases rest with
    | nil => simpa [join] using h x (List.mem_cons_self _ _)
    | cons y rest =>
      have hrest := ih (fun n hn => h n (List.mem_cons_of_mem _ hn))
      have hx := h x (List.mem_cons_self _ _)
      unfold join
      rw [String.data_append, String.data_append]
      intro c hm
      rcases List.mem_append.mp hm with h1 | h1
      · rcases List.mem_append.mp h1 with h2 | h2
        · exact hx c h2
        · have hc : c = Char.ofNat 32 := by simpa using h2
          rw [hc]
          exact hsp
      · exact hrest c h1

theorem toLowerUnicode_ascii (lower : Char → List Char) (q : String)
    (h : ∀ c ∈ q.data, c.toNat < 128) : toLowerUnicode lower q = toLower q := by
  unfold toLowerUnicode toLower
  congr 1
  generalize q.data = l at h
  induction l with
  | nil => rfl
  | cons c l ih =>
    rw [List.flatMap_cons, List.map_cons, ih (fun d hd => h d (List.mem_cons_of_mem _ hd)),
      if_pos (h c (List.mem_cons_self _ _))]
    rfl

theorem toUpperUnicode_ascii (upper : Char → List Char) (q : String)
    (h : ∀ c ∈ q.data, c.toNat < 128) : toUpperUnicode upper q = toUpper q := by
  unfold toUpperUnicode toUpper
  congr 1
  generalize q.data = l at h
  induction l with
  | nil => rfl
  | cons c l ih =>
    rw [List.flatMap_cons, List.map_cons, ih (fun d hd => h d (List.mem_cons_of_mem _ hd)),
      if_pos (h c (List.mem_cons_self _ _))]
    rfl

set_option maxRecDepth 100000 in
theorem keywordPatterns_ascii : ∀ k ∈ keywordPatterns, ∀ c ∈ k.data, c.toNat < 128 := by
  decide

set_option maxRecDepth 100000 in
theorem catalog_names_ascii :
    ∀ p ∈ coreFunctionPatterns ++ mathFunctionPatterns, ∀ c ∈ p.1.data, c.toNat < 128 := by
  decide

theorem functionPatterns_name_mem (env : Host) (p : String × String)
    (hp : p ∈ functionPatterns env) :
    ∃ q ∈ coreFunctionPatterns ++ mathFunctionPatterns, q.1 = p.1 := by
  unfold functionPatterns at hp
  simp only [] at hp
  split at hp
  · rcases List.mem_append.mp hp with h | h
    · obtain ⟨q, hq, rfl⟩ := List.mem_map.mp h
      exact ⟨q, List.mem_append_left _ hq, rfl⟩
    · obtain ⟨q, hq, rfl⟩ := List.mem_map.mp h
      exact ⟨q, List.mem_append_right _ hq, rfl⟩
  · obtain ⟨q, hq, rfl⟩ := List.mem_map.mp hp
    exact ⟨q, List.mem_append_left _ hq, rfl⟩

theorem keywordPatterns_toLowerUnicode (lower : Char → List Char) :
    ∀ k ∈ keywordPatterns, toLowerUnicode lower k = toLower k :=
  fun k hk => toLowerUnicode_ascii lower k (keywordPatterns_ascii k hk)

theorem keywordsText_toLowerUnicode (lower : Char → List Char) :
    toLowerUnicode lower (join " " keywordPatterns) = toLower (join " " keywordPatterns) :=
  toLowerUnicode_ascii lower _
    (join_forall (fun c => c.toNat < 128) (by decide) _ keywordPatterns_ascii)

theorem functionPatterns_toUpperUnicode (env : Host) (upper : Char → List Char) :
    ∀ p ∈ functionPatterns env, toUpperUnicode upper p.1 = toUpper p.1 := by
  intro p hp
  obtain ⟨q, hq, hqp⟩ := functionPatterns_name_mem env p hp
  rw [← hqp]
  exact toUpperUnicode_ascii upper q.1 (catalog_names_ascii q hq)

/-! ## Loops as folds -/

theorem foldl_autocompleteApi {α : Type} (f : Lexer → α → Lexer) (g : α → List String)
    (h : ∀ s a, (f s a).autocompleteApi = s.autocompleteApi ++ g a) (l : List α) (s : Lexer) :
    (l.foldl f s).autocompleteApi = s.autocompleteApi ++ l.flatMap g := by
  induction l generalizing s with
  | nil => simp
  | cons a l ih => simp [ih, h, List.append_assoc]

theorem foldl_listTables {α : Type} (f : Lexer → α → Lexer) (g : α → List String)
    (h : ∀ s a, (f s a).listTables = s.listTables ++ g a) (l : List α) (s : Lexer) :
    (l.foldl f s).listTables = s.listTables ++ l.flatMap g := by
  induction l generalizing s with
  | nil => simp
  | cons a l ih => simp [ih, h, List.append_assoc]

theorem foldl_listFunctions {α : Type} (f : Lexer → α → Lexer) (g : α → List String)
    (h : ∀ s a, (f s a).listFunctions = s.listFunctions ++ g a) (l : List α) (s : Lexer) :
    (l.foldl f s).listFunctions = s.listFunctions ++ l.flatMap g := by
  induction l generalizing s with
  | nil => simp
  | cons a l ih => simp [ih, h, List.append_assoc]

theorem flatMap_single {α β : Type} (f : α → β) (l : List α) :
    l.flatMap (fun a => [f a]) = l.map f := by
  induction l with
  | nil => rfl
  | cons a l ih => simp [List.flatMap_cons, ih]

theorem foldl_keeps {α β : Type} (f : Lexer → α → Lexer) (p : Lexer → β)
    (h : ∀ s a, p (f s a) = p s) (l : List α) (s : Lexer) :
    p (l.foldl f s) = p s := by
  induction l generalizing s with
  | nil => rfl
  | cons a l ih => simp [ih, h]

/-! ## `setupAutoCompletion` -/

/-- What the keyword loop adds for one keyword, as the code computes it. -/
theorem keywordLoop_entries (env : Host) :
    keywordPatterns.map (fun k =>
      (if env.upper_keywords then k else toLowerUnicode env.unicodeLower k) ++ "?" ++
        number env.ApiCompleterIconIdKeyword) = keywordEntries env := by
  unfold keywordEntries
  apply List.map_congr_left
  intro k hk
  unfold keywordEntry
  rw [keywordPatterns_toLowerUnicode _ k hk]

/-- What the function loop adds for the catalog, as the code computes it. -/
theorem functionLoop_entries (env : Host) :
    (functionPatterns env).flatMap (fun p =>
      [p.1 ++ "?" ++ number env.ApiCompleterIconIdFunction ++ p.2,
       toUpperUnicode env.unicodeUpper p.1 ++ "?" ++
         number env.ApiCompleterIconIdFunction ++ p.2]) =
      functionEntries env (functionPatterns env) := by
  unfold functionEntries List.flatMap
  congr 1
  apply List.map_congr_left
  intro p hp
  unfold functionEntry
  rw [functionPatterns_toUpperUnicode env _ p hp]

theorem setupAutoCompletion_autocompleteApi (env : Host) (s : Lexer) :
    (setupAutoCompletion env s).autocompleteApi =
      s.autocompleteApi ++ keywordEntries env ++ functionEntries env (functionPatterns env) := by
  unfold setupAutoCompletion
  simp only []
  rw [foldl_autocompleteApi _ (fun p =>
    [p.1 ++ "?" ++ number env.ApiCompleterIconIdFunction ++ p.2,
     toUpperUnicode env.unicodeUpper p.1 ++ "?" ++
       number env.ApiCompleterIconIdFunction ++ p.2])]
  · simp only []
    rw [foldl_autocompleteApi _ (fun k =>
      [(if env.upper_keywords then k else toLowerUnicode env.unicodeLower k) ++ "?" ++
        number env.ApiCompleterIconIdKeyword])]
    · rw [flatMap_single, keywordLoop_entries, functionLoop_entries]
    · intro s a
      cases h : env.upper_keywords <;> simp [apiAdd]
  · intro s a
    simp [apiAdd]


theorem setupAutoCompletion_listFunctions (env : Host) (s : Lexer) :
    (setupAutoCompletion env s).listFunctions = (functionPatterns env).map Prod.fst := by
  unfold setupAutoCompletion
  simp only []
  rw [foldl_listFunctions _ (fun p => [p.1])]
  · rw [flatMap_single]
    simp
  · intro s a
    simp [apiAdd]

theorem setupAutoCompletion_listTables (env : Host) (s : Lexer) :
    (setupAutoCompletion env s).listTables = s.listTables := by
  unfold setupAutoCompletion
  simp only []
  rw [foldl_keeps _ (fun s => s.listTables)]
  · simp only []
    rw [foldl_keeps _ (fun s => s.listTables)]
    intro s a
    cases env.upper_keywords <;> simp [apiAdd]
  · intro s a
    simp [apiAdd]

theorem setupAutoCompletion_statics (env : Host) (s : Lexer) :
    (setupAutoCompletion env s).statics = s.statics := by
  unfold setupAutoCompletion
  simp only []
  rw [foldl_keeps _ (fun s => s.statics)]
  · simp only []
    rw [foldl_keeps _ (fun s => s.statics)]
    intro s a
    cases env.upper_keywords <;> simp [apiAdd]
  · intro s a
    simp [apiAdd]

/-! ## `setTableNames` -/

theorem setTableNames_autocompleteApi (env : Host) (tables : QualifiedTablesMap) (s : Lexer) :
    (setTableNames env tables s).autocompleteApi =
      tableEntries env tables ++ keywordEntries env ++
        functionEntries env (functionPatterns env) := by
  unfold setTableNames
  simp only []
  rw [setupAutoCompletion_autocompleteApi]
  congr 2
  rw [foldl_autocompleteApi _ (fun itSchemas =>
    itSchemas.2.flatMap (fun itTables =>
      schemaTableEntry env itSchemas.1 itTables.1 ::
        itTables.2.flatMap (fun field =>
          [tableColumnEntry env itTables.1 field, columnEntry env field])))]
  · simp [apiClear, tableEntries]
  · intro s itSchemas
    apply foldl_autocompleteApi
    intro s itTables
    simp only []
    rw [foldl_autocompleteApi _ (fun field =>
      [tableColumnEntry env itTables.1 field, columnEntry env field])]
    · simp [apiAdd, schemaTableEntry]
    · intro s field
      simp [apiAdd, tableColumnEntry, columnEntry]

theorem setTableNames_listTables (env : Host) (tables : QualifiedTablesMap) (s : Lexer) :
    (setTableNames env tables s).listTables = tableNames tables := by
  unfold setTableNames
  simp only []
  rw [setupAutoCompletion_listTables]
  rw [foldl_listTables _ (fun itSchemas => itSchemas.2.map Prod.fst)]
  · simp [apiClear, tableNames]
  · intro s itSchemas
    rw [← flatMap_single]
    apply foldl_listTables
    intro s itTables
    simp only []
    rw [foldl_keeps _ (fun s => s.listTables)]
    · simp [apiAdd]
    · intro s field
      simp [apiAdd]

theorem setTableNames_listFunctions (env : Host) (tables : QualifiedTablesMap) (s : Lexer) :
    (setTableNames env tables s).listFunctions = (functionPatterns env).map Prod.fst := by
  unfold setTableNames
  simp only []
  rw [setupAutoCompletion_listFunctions]

theorem setTableNames_statics (env : Host) (tables : QualifiedTablesMap) (s : Lexer) :
    (setTableNames env tables s).statics = s.statics := by
  unfold setTableNames
  simp only []
  rw [setupAutoCompletion_statics]
  rw [foldl_keeps _ (fun s => s.statics)]
  · simp [apiClear]
  · intro s itSchemas
    apply foldl_keeps _ (fun s => s.statics)
    intro s itTables
    simp only []
    rw [foldl_keeps _ (fun s => s.statics)]
    · simp [apiAdd]
    · intro s field
      simp [apiAdd]

theorem construct_autocompleteApi (env : Host) (st : Statics) :
    (construct env st).autocompleteApi =
      keywordEntries env ++ functionEntries env (functionPatterns env) := by
  simp [construct, setupAutoCompletion_autocompleteApi]

theorem construct_listTables (env : Host) (st : Statics) :
    (construct env st).listTables = [] := by
  simp [construct, setupAutoCompletion_listTables]

theorem construct_listFunctions (env : Host) (st : Statics) :
    (construct env st).listFunctions = (functionPatterns env).map Prod.fst := by
  simp [construct, setupAutoCompletion_listFunctions]

theorem construct_statics (env : Host) (st : Statics) :
    (construct env st).statics = st := by
  simp [construct, setupAutoCompletion_statics]

/-! ## Counting -/

theorem functionEntries_length (env : Host) (catalog : List (String × String)) :
    (functionEntries env catalog).length = 2 * catalog.length := by
  induction catalog with
  | nil => rfl
  | cons p l ih =>
    have h : functionEntries env (p :: l) = functionEntry env p ++ functionEntries env l := by
      simp [functionEntries, List.flatMap_cons]
    rw [h, List.length_append, ih]
    simp [functionEntry]
    omega

theorem columnEntries_length (env : Host) (table : String) (columns : List String) :
    (columns.flatMap (fun field =>
      [tableColumnEntry env table field, columnEntry env field])).length = 2 * columns.length := by
  induction columns with
  | nil => rfl
  | cons c l ih =>
    rw [List.flatMap_cons, List.length_append, ih]
    simp
    omega

theorem tableEntries_length (env : Host) (tables : QualifiedTablesMap) :
    (tableEntries env tables).length = tableEntryCount tables := by
  induction tables with
  | nil => rfl
  | cons sch rest ih =>
    have hsch : ∀ tbs : List (String × List String),
        (tbs.flatMap (fun itTables =>
          schemaTableEntry env sch.1 itTables.1 ::
            itTables.2.flatMap (fun field =>
              [tableColumnEntry env itTables.1 field, columnEntry env field]))).length =
          (tbs.map (fun itTables => 1 + 2 * itTables.2.length)).sum := by
      intro tbs
      induction tbs with
      | nil => rfl
      | cons tb tbs ih2 =>
        rw [List.flatMap_cons, List.length_append, ih2, List.length_cons,
          columnEntries_length, List.map_cons, List.sum_cons]
        omega
    unfold tableEntries tableEntryCount at *
    rw [List.flatMap_cons, List.length_append, ih, hsch, List.map_cons, List.sum_cons]


/-! ## Splitting an entry at its marker -/

theorem list_split_first (c : Char) (a b x y : List Char) (ha : c ∉ a) (hb : c ∉ b)
    (h : a ++ c :: x = b ++ c :: y) : a = b ∧ x = y := by
  induction a generalizing b with
  | nil =>
    cases b with
    | nil => simpa using h
    | cons d b =>
      simp at h
      exact absurd (h.1 ▸ List.mem_cons_self _ _) hb
  | cons e a ih =>
    cases b with
    | nil =>
      simp at h
      exact absurd (h.1 ▸ List.mem_cons_self _ _) ha
    | cons d b =>
      simp at h
      have hr := ih b (fun hm => ha (List.mem_cons_of_mem _ hm))
        (fun hm => hb (List.mem_cons_of_mem _ hm)) h.2
      exact ⟨by rw [h.1, hr.1], hr.2⟩

theorem list_split_last (c : Char) (a b x y : List Char) (ha : c ∉ a) (hb : c ∉ b)
    (h : x ++ c :: a = y ++ c :: b) : a = b := by
  have hrev := congrArg List.reverse h
  simp only [List.reverse_append, List.reverse_cons, List.append_assoc,
    List.singleton_append] at hrev
  have hr := list_split_first c a.reverse b.reverse x.reverse y.reverse
    (by simpa using ha) (by simpa using hb) hrev
  simpa using hr.1

theorem entry_split_first (a b x y : String) (ha : marker ∉ a.data) (hb : marker ∉ b.data)
    (h : a ++ "?" ++ x = b ++ "?" ++ y) : a = b ∧ x = y := by
  have hd := congrArg String.data h
  simp only [String.data_append, List.append_assoc] at hd
  have hr := list_split_first marker a.data b.data x.data y.data ha hb hd
  exact ⟨String.ext hr.1, String.ext hr.2⟩

theorem entry_split_last (a b x y : String) (ha : marker ∉ a.data) (hb : marker ∉ b.data)
    (h : x ++ "?" ++ a = y ++ "?" ++ b) : a = b := by
  have hd := congrArg String.data h
  simp only [String.data_append, List.append_assoc] at hd
  exact String.ext (list_split_last marker a.data b.data x.data y.data ha hb hd)

theorem digitChar_ne_marker (d : Nat) (hd : d < 10) : Nat.digitChar d ≠ marker := by
  interval_cases d <;> decide

theorem toDigitsCore_no_marker (fuel n : Nat) (ds : List Char) (hds : marker ∉ ds) :
    marker ∉ Nat.toDigitsCore 10 fuel n ds := by
  induction fuel generalizing n ds with
  | zero => simpa [Nat.toDigitsCore] using hds
  | succ fuel ih =>
    have hcons : marker ∉ Nat.digitChar (n % 10) :: ds := by
      intro hm
      rcases List.mem_cons.mp hm with h | h
      · exact digitChar_ne_marker (n % 10) (Nat.mod_lt _ (by decide)) h.symm
      · exact hds h
    unfold Nat.toDigitsCore
    simp only []
    split
    · exact hcons
    · exact ih _ _ hcons

theorem natRepr_no_marker (n : Nat) : marker ∉ (toString n).data := by
  show marker ∉ (Nat.repr n).data
  unfold Nat.repr Nat.toDigits
  exact toDigitsCore_no_marker _ _ _ (by simp)

theorem number_no_marker (n : Int) : marker ∉ (number n).data := by
  unfold number
  cases n with
  | ofNat m => exact natRepr_no_marker m
  | negSucc m =>
    show marker ∉ ("-" ++ toString (Nat.succ m)).data
    rw [String.data_append]
    intro hm
    rcases List.mem_append.mp hm with h | h
    · revert h
      decide
    · exact natRepr_no_marker _ h


/-! ## Facts about the catalogs -/

set_option maxRecDepth 100000 in
theorem keywordPatterns_upper : ∀ k ∈ keywordPatterns, toUpper k = k := by decide

set_option maxRecDepth 100000 in
theorem keywordPatterns_no_marker :
    ∀ k ∈ keywordPatterns, marker ∉ k.data ∧ marker ∉ (toLower k).data := by decide

set_option maxRecDepth 100000 in
set_option maxHeartbeats 4000000 in
theorem keywordPatterns_lower_not_keyword :
    ∀ k ∈ keywordPatterns, toLower k ∉ keywordPatterns := by decide


set_option maxRecDepth 100000 in
theorem catalog_names_no_marker :
    ∀ p ∈ coreFunctionPatterns ++ mathFunctionPatterns,
      marker ∉ p.1.data ∧ marker ∉ (toUpper p.1).data := by decide

theorem functionPatterns_names (env : Host) :
    (functionPatterns env).map Prod.fst =
      coreFunctionPatterns.map Prod.fst ++
        (if enabledMathFunctions env then mathFunctionPatterns.map Prod.fst else []) := by
  unfold functionPatterns
  cases enabledMathFunctions env <;> simp [List.map_map, Function.comp_def]

/-- Every function entry is a marker-free name, the marker, the function icon id and a
description. -/
theorem functionEntries_shape (env : Host) (catalog : List (String × String)) (e : String)
    (he : e ∈ functionEntries env catalog) :
    ∃ p ∈ catalog, e = p.1 ++ "?" ++ (number env.ApiCompleterIconIdFunction ++ p.2) ∨
      e = toUpper p.1 ++ "?" ++ (number env.ApiCompleterIconIdFunction ++ p.2) := by
  unfold functionEntries at he
  obtain ⟨p, hp, hpe⟩ := List.mem_flatMap.mp he
  refine ⟨p, hp, ?_⟩
  simp only [functionEntry, List.mem_cons, List.mem_singleton, List.not_mem_nil, or_false] at hpe
  rcases hpe with h | h
  · left; rw [h, String.append_assoc]
  · right; rw [h, String.append_assoc]

/-- Every table-derived entry ends with the marker and the table or the column icon id. -/
theorem tableEntries_shape (env : Host) (t : QualifiedTablesMap) (e : String)
    (he : e ∈ tableEntries env t) :
    ∃ x, e = x ++ "?" ++ number env.ApiCompleterIconIdTable ∨
      e = x ++ "?" ++ number env.ApiCompleterIconIdColumn := by
  unfold tableEntries at he
  obtain ⟨sch, _, h1⟩ := List.mem_flatMap.mp he
  obtain ⟨tb, _, h2⟩ := List.mem_flatMap.mp h1
  rcases List.mem_cons.mp h2 with h | h
  · exact ⟨sch.1 ++ "?" ++ number env.ApiCompleterIconIdSchema ++ "." ++ tb.1, Or.inl h⟩
  · obtain ⟨c, _, h3⟩ := List.mem_flatMap.mp h
    simp only [List.mem_cons, List.mem_singleton, List.not_mem_nil, or_false] at h3
    rcases h3 with h4 | h4
    · exact ⟨tb.1 ++ "?" ++ number env.ApiCompleterIconIdTable ++ "." ++ c, Or.inr h4⟩
    · exact ⟨c, Or.inr h4⟩

/-- A marker-free text followed by the marker and the keyword icon id is no table-derived
entry and no function entry, when the icon ids keep the three kinds apart. -/
theorem keyword_shaped_not_in_tables_functions (env : Host)
    (hF : ∀ d : String,
      number env.ApiCompleterIconIdFunction ++ d ≠ number env.ApiCompleterIconIdKeyword)
    (hT : number env.ApiCompleterIconIdTable ≠ number env.ApiCompleterIconIdKeyword)
    (hC : number env.ApiCompleterIconIdColumn ≠ number env.ApiCompleterIconIdKeyword)
    (t : QualifiedTablesMap) (o : String) (ho : marker ∉ o.data) :
    o ++ "?" ++ number env.ApiCompleterIconIdKeyword ∉ tableEntries env t ∧
      o ++ "?" ++ number env.ApiCompleterIconIdKeyword ∉
        functionEntries env (functionPatterns env) := by
  refine ⟨?_, ?_⟩
  · intro hm
    obtain ⟨x, hx⟩ := tableEntries_shape env t _ hm
    rcases hx with h | h
    · exact hT (entry_split_last _ _ _ _ (number_no_marker _) (number_no_marker _) h).symm
    · exact hC (entry_split_last _ _ _ _ (number_no_marker _) (number_no_marker _) h).symm
  · intro hm
    obtain ⟨p, hp, hpe⟩ := functionEntries_shape env _ _ hm
    obtain ⟨q, hq, hqp⟩ := functionPatterns_name_mem env p hp
    have hq2 := catalog_names_no_marker q hq
    rw [hqp] at hq2
    rcases hpe with h | h
    · exact hF p.2 (entry_split_first _ _ _ _ ho hq2.1 h).2.symm
    · exact hF p.2 (entry_split_first _ _ _ _ ho hq2.2 h).2.symm


set_option maxRecDepth 100000 in
theorem math_names_not_core :
    ∀ p ∈ mathFunctionPatterns, ∀ q ∈ coreFunctionPatterns,
      p.1 ≠ q.1 ∧ p.1 ≠ toUpper q.1 ∧ toUpper p.1 ≠ q.1 ∧ toUpper p.1 ≠ toUpper q.1 := by
  decide

set_option maxRecDepth 100000 in
theorem math_names_not_keywords :
    ∀ p ∈ mathFunctionPatterns, ∀ k ∈ keywordPatterns,
      p.1 ≠ k ∧ p.1 ≠ toLower k ∧ toUpper p.1 ≠ k ∧ toUpper p.1 ≠ toLower k := by
  decide

theorem functionPatterns_gate_true (env : Host) (h : enabledMathFunctions env = true) :
    functionPatterns env =
      coreFunctionPatterns.map (fun p => (p.1, env.tr p.2)) ++
        mathFunctionPatterns.map (fun p => (p.1, env.tr p.2)) := by
  simp [functionPatterns, h]

theorem functionPatterns_gate_false (env : Host) (h : enabledMathFunctions env = false) :
    functionPatterns env = coreFunctionPatterns.map (fun p => (p.1, env.tr p.2)) := by
  simp [functionPatterns, h]

theorem functionEntries_append (env : Host) (a b : List (String × String)) :
    functionEntries env (a ++ b) = functionEntries env a ++ functionEntries env b := by
  simp [functionEntries, List.flatMap_append]

theorem functionEntry_mem_functionEntries (env : Host) (catalog : List (String × String))
    (p : String × String) (hp : p ∈ catalog) (e : String) (he : e ∈ functionEntry env p) :
    e ∈ functionEntries env catalog :=
  List.mem_flatMap.mpr ⟨p, hp, he⟩

/-- An entry of a math function is neither a keyword entry nor an entry of a core
function. -/
theorem math_entry_not_core (env : Host) (p : String × String)
    (hp : p ∈ mathFunctionPatterns) (e : String)
    (he : e ∈ functionEntry env (p.1, env.tr p.2)) :
    e ∉ keywordEntries env ++
      functionEntries env (coreFunctionPatterns.map (fun q => (q.1, env.tr q.2))) := by
  have hpm := catalog_names_no_marker p (List.mem_append_right _ hp)
  have hshape : ∃ a : String, marker ∉ a.data ∧ (a = p.1 ∨ a = toUpper p.1) ∧
      e = a ++ "?" ++ (number env.ApiCompleterIconIdFunction ++ env.tr p.2) := by
    simp only [functionEntry, List.mem_cons, List.mem_singleton, List.not_mem_nil,
      or_false] at he
    rcases he with h | h
    · exact ⟨p.1, hpm.1, Or.inl rfl, by rw [h, String.append_assoc]⟩
    · exact ⟨toUpper p.1, hpm.2, Or.inr rfl, by rw [h, String.append_assoc]⟩
  obtain ⟨a, ha, hap, hea⟩ := hshape
  intro hm
  rcases List.mem_append.mp hm with h | h
  · obtain ⟨k, hk, hke⟩ := List.mem_map.mp h
    have hkm := keywordPatterns_no_marker k hk
    have hnk := math_names_not_keywords p hp k hk
    unfold keywordEntry at hke
    rw [hea] at hke
    cases hu : env.upper_keywords
    · rw [hu] at hke
      have heq := (entry_split_first _ _ _ _ hkm.2 ha hke).1
      rcases hap with h1 | h1
      · exact hnk.2.1 (by rw [← h1, ← heq])
      · exact hnk.2.2.2 (by rw [← h1, ← heq])
    · rw [hu] at hke
      have heq := (entry_split_first _ _ _ _ hkm.1 ha hke).1
      rcases hap with h1 | h1
      · exact hnk.1 (by rw [← h1, ← heq])
      · exact hnk.2.2.1 (by rw [← h1, ← heq])
  · obtain ⟨q2, hq2, hq2e⟩ := functionEntries_shape env _ _ h
    obtain ⟨q, hq, rfl⟩ := List.mem_map.mp hq2
    have hqm := catalog_names_no_marker q (List.mem_append_left _ hq)
    have hnq := math_names_not_core p hp q hq
    rw [hea] at hq2e
    rcases hq2e with h2 | h2
    · have heq := (entry_split_first _ _ _ _ ha hqm.1 h2).1
      rcases hap with h1 | h1
      · exact hnq.1 (by rw [← h1, heq])
      · exact hnq.2.2.1 (by rw [← h1, heq])
    · have heq := (entry_split_first _ _ _ _ ha hqm.2 h2).1
      rcases hap with h1 | h1
      · exact hnq.2.1 (by rw [← h1, heq])
      · exact hnq.2.2.2 (by rw [← h1, heq])

/-! ## C strings -/

theorem toLower_ne_nul (c : Char) (h : c ≠ nul) : c.toLower ≠ nul := by
  unfold Char.toLower
  simp only []
  split
  · rename_i hr
    generalize c.toNat = n at hr
    obtain ⟨h1, h2⟩ := hr
    interval_cases n <;> decide
  · exact h

theorem toLower_no_nul (q : String) (h : nul ∉ q.data) : nul ∉ (toLower q).data := by
  intro hm
  obtain ⟨c, hc, hcn⟩ := List.mem_map.mp hm
  exact toLower_ne_nul c (fun hcc => h (hcc ▸ hc)) hcn

theorem join_no_nul (l : List String) (h : ∀ n ∈ l, nul ∉ n.data) :
    nul ∉ (join " " l).data := by
  induction l with
  | nil => simp [join]
  | cons x rest ih =>
    cases rest with
    | nil => simpa [join] using h x (List.mem_cons_self _ _)
    | cons y rest =>
      have hrest := ih (fun n hn => h n (List.mem_cons_of_mem _ hn))
      have hx := h x (List.mem_cons_self _ _)
      unfold join
      rw [String.data_append, String.data_append]
      intro hm
      rcases List.mem_append.mp hm with h1 | h1
      · rcases List.mem_append.mp h1 with h2 | h2
        · exact hx h2
        · revert h2
          decide
      · exact hrest h1

theorem constData_of_no_nul (q : String) (h : nul ∉ q.data) : constData q = q := by
  unfold constData
  apply String.ext
  show List.takeWhile (fun c => c != nul) q.data = q.data
  rw [List.takeWhile_eq_self_iff]
  intro c hc
  simp only [bne_iff_ne, ne_eq]
  intro hcn
  exact h (hcn ▸ hc)

/-! ## `keywords` -/

theorem keywords_set6 (env : Host) (s : Lexer) :
    (keywords env 6 s).1 =
      some (constData (toLowerUnicode env.unicodeLower (join " " s.listTables))) := by
  simp [keywords]

theorem keywords_listTables (env : Host) (set : Int) (s : Lexer) :
    (keywords env set s).2.listTables = s.listTables := by
  unfold keywords
  simp only []
  split_ifs <;> rfl

theorem keywords_listFunctions (env : Host) (set : Int) (s : Lexer) :
    (keywords env set s).2.listFunctions = s.listFunctions := by
  unfold keywords
  simp only []
  split_ifs <;> rfl

theorem keywords_autocompleteApi (env : Host) (set : Int) (s : Lexer) :
    (keywords env set s).2.autocompleteApi = s.autocompleteApi := by
  unfold keywords
  simp only []
  split_ifs <;> rfl

theorem run_keepsTables_listTables (env : Host) (calls : List Call)
    (hcalls : ∀ c ∈ calls, c.keepsTables = true) (s : Lexer) :
    (run env calls s).listTables = s.listTables := by
  induction calls generalizing s with
  | nil => rfl
  | cons c rest ih =>
    have hrest := ih (fun d hd => hcalls d (List.mem_cons_of_mem _ hd))
    have hc := hcalls c (List.mem_cons_self _ _)
    show (run env rest (step env s c)).listTables = s.listTables
    rw [hrest]
    cases c with
    | setTableNames t => simp [Call.keepsTables] at hc
    | keywords set => exact keywords_listTables env set s
    | processEvent =>
      show (processEvent s).listTables = s.listTables
      unfold processEvent
      split <;> rfl

set_option maxRecDepth 100000 in
theorem keywordPatterns_no_nul : ∀ k ∈ keywordPatterns, nul ∉ k.data := by decide

set_option maxRecDepth 100000 in
theorem keywordPatterns_lower_chars :
    ∀ k ∈ keywordPatterns, ∀ c ∈ (toLower k).data, c.isUpper = false := by decide

set_option maxRecDepth 100000 in
theorem catalog_names_chars :
    ∀ p ∈ coreFunctionPatterns ++ mathFunctionPatterns,
      nul ∉ p.1.data ∧ ∀ c ∈ p.1.data, c.isUpper = false := by decide

theorem toLower_join (l : List String) :
    toLower (join " " l) = join " " (l.map toLower) := by
  induction l with
  | nil => rfl
  | cons x rest ih =>
    cases rest with
    | nil => rfl
    | cons y rest =>
      have hstep : toLower (x ++ " " ++ join " " (y :: rest)) =
          toLower x ++ " " ++ toLower (join " " (y :: rest)) := by
        apply String.ext
        simp only [toLower, String.data_append, List.map_append]
        rfl
      show toLower (x ++ " " ++ join " " (y :: rest)) =
        toLower x ++ " " ++ join " " (List.map toLower (y :: rest))
      rw [hstep, ih]

theorem keywordsText_constData :
    constData (toLower (join " " keywordPatterns)) = toLower (join " " keywordPatterns) :=
  constData_of_no_nul _ (toLower_no_nul _ (join_no_nul _ keywordPatterns_no_nul))

theorem functionNames_facts (env : Host) :
    ∀ n ∈ (functionPatterns env).map Prod.fst,
      nul ∉ n.data ∧ ∀ c ∈ n.data, c.isUpper = false := by
  intro n hn
  obtain ⟨p, hp, rfl⟩ := List.mem_map.mp hn
  obtain ⟨q, hq, hqp⟩ := functionPatterns_name_mem env p hp
  rw [← hqp]
  exact catalog_names_chars q hq

theorem functionsText_constData (env : Host) :
    constData (join " " ((functionPatterns env).map Prod.fst)) =
      join " " ((functionPatterns env).map Prod.fst) :=
  constData_of_no_nul _ (join_no_nul _ (fun n hn => (functionNames_facts env n hn).1))

/-! ## Reachable states -/

theorem construct_cachesCurrent (env : Host) : CachesCurrent env (construct env Statics.fresh) := by
  refine ⟨construct_listFunctions env _, ?_, ?_⟩
  · left; rw [construct_statics]; rfl
  · left; rw [construct_statics]; rfl

theorem step_cachesCurrent (env : Host) (s : Lexer) (c : Call) (h : CachesCurrent env s) :
    CachesCurrent env (step env s c) := by
  obtain ⟨hf, hk, hfn⟩ := h
  cases c with
  | setTableNames t =>
    show CachesCurrent env (setTableNames env t s)
    unfold CachesCurrent
    rw [setTableNames_listFunctions, setTableNames_statics]
    exact ⟨rfl, hk, hfn⟩
  | keywords set =>
    show CachesCurrent env (keywords env set s).2
    refine ⟨by rw [keywords_listFunctions, hf], ?_, ?_⟩
    · right
      unfold keywords
      simp only []
      rw [keywordsText_toLowerUnicode]
      rcases hk with hk | hk <;> rw [hk] <;> split_ifs <;> rfl
    · right
      unfold keywords
      simp only []
      rcases hfn with hfn | hfn <;> rw [hfn, hf] <;> split_ifs <;> rfl
  | processEvent =>
    show CachesCurrent env (processEvent s)
    unfold processEvent
    split
    · exact ⟨hf, hk, hfn⟩
    · exact ⟨hf, hk, hfn⟩

theorem run_cachesCurrent (env : Host) (calls : List Call) (s : Lexer)
    (h : CachesCurrent env s) : CachesCurrent env (run env calls s) := by
  induction calls generalizing s with
  | nil => exact h
  | cons c rest ih => exact ih _ (step_cachesCurrent env s c h)

theorem keywords_set1_of_cachesCurrent (env : Host) (s : Lexer) (h : CachesCurrent env s) :
    (keywords env 1 s).1 = some (toLower (join " " keywordPatterns)) := by
  obtain ⟨_, hk, _⟩ := h
  unfold keywords
  simp only []
  rw [keywordsText_toLowerUnicode]
  rcases hk with hk | hk <;> rw [hk] <;> simp [keywordsText_constData]

theorem keywords_set7_of_cachesCurrent (env : Host) (s : Lexer) (h : CachesCurrent env s) :
    (keywords env 7 s).1 = some (join " " ((functionPatterns env).map Prod.fst)) := by
  obtain ⟨hf, _, hfn⟩ := h
  unfold keywords
  simp only []
  rcases hfn with hfn | hfn <;> rw [hfn] <;> simp [hf, functionsText_constData]

/-! ## The event queue and the history -/

theorem foldl_trace {α : Type} (f : Lexer → α → Lexer) (g : α → List String)
    (h : ∀ s a, (f s a).trace = s.trace ++ addEvents (g a)) (l : List α) (s : Lexer) :
    (l.foldl f s).trace = s.trace ++ addEvents (l.flatMap g) := by
  induction l generalizing s with
  | nil => simp [addEvents]
  | cons a l ih => simp [ih, h, addEvents, List.append_assoc]

theorem setupAutoCompletion_posted (env : Host) (s : Lexer) :
    (setupAutoCompletion env s).posted = s.posted + 1 := by
  unfold setupAutoCompletion
  simp only []
  rw [foldl_keeps _ (fun s => s.posted)]
  · simp only []
    rw [foldl_keeps _ (fun s => s.posted)]
    intro s a
    cases env.upper_keywords <;> simp [apiAdd]
  · intro s a
    simp [apiAdd]

theorem setupAutoCompletion_trace (env : Host) (s : Lexer) :
    (setupAutoCompletion env s).trace =
      s.trace ++ addEvents (keywordEntries env ++
        functionEntries env (functionPatterns env)) ++ [Event.queued s.posted] := by
  have hposted := setupAutoCompletion_posted env s
  unfold setupAutoCompletion at hposted ⊢
  simp only [] at hposted ⊢
  rw [Nat.add_right_cancel hposted]
  rw [foldl_trace _ (fun p =>
    [p.1 ++ "?" ++ number env.ApiCompleterIconIdFunction ++ p.2,
     toUpperUnicode env.unicodeUpper p.1 ++ "?" ++
       number env.ApiCompleterIconIdFunction ++ p.2])]
  · simp only []
    rw [foldl_trace _ (fun k =>
      [(if env.upper_keywords then k else toLowerUnicode env.unicodeLower k) ++ "?" ++
        number env.ApiCompleterIconIdKeyword])]
    · rw [flatMap_single, keywordLoop_entries, functionLoop_entries]
      simp [addEvents]
    · intro s a
      cases h : env.upper_keywords <;> simp [apiAdd, addEvents]
  · intro s a
    simp [apiAdd, addEvents]

theorem setupAutoCompletion_queue (env : Host) (s : Lexer) :
    (setupAutoCompletion env s).queue = s.queue ++ [QueuedCall.prepare s.posted] := by
  have hposted := setupAutoCompletion_posted env s
  unfold setupAutoCompletion at hposted ⊢
  simp only [] at hposted ⊢
  rw [Nat.add_right_cancel hposted]
  congr 1
  rw [foldl_keeps _ (fun s => s.queue)]
  · simp only []
    rw [foldl_keeps _ (fun s => s.queue)]
    intro s a
    cases env.upper_keywords <;> simp [apiAdd]
  · intro s a
    simp [apiAdd]

theorem setTableNames_posted (env : Host) (tables : QualifiedTablesMap) (s : Lexer) :
    (setTableNames env tables s).posted = s.posted + 1 := by
  unfold setTableNames
  simp only []
  rw [setupAutoCompletion_posted]
  congr 1
  rw [foldl_keeps _ (fun s => s.posted)]
  · simp [apiClear]
  · intro s itSchemas
    apply foldl_keeps _ (fun s => s.posted)
    intro s itTables
    simp only []
    rw [foldl_keeps _ (fun s => s.posted)]
    · simp [apiAdd]
    · intro s field
      simp [apiAdd]

theorem setTableNames_trace (env : Host) (tables : QualifiedTablesMap) (s : Lexer) :
    (setTableNames env tables s).trace =
      s.trace ++ [Event.apiClear] ++ addEvents (tableEntries env tables ++ keywordEntries env ++
        functionEntries env (functionPatterns env)) ++ [Event.queued s.posted] := by
  have hposted : (setTableNames env tables s).posted = s.posted + 1 :=
    setTableNames_posted env tables s
  unfold setTableNames at hposted ⊢
  simp only [] at hposted ⊢
  rw [setupAutoCompletion_posted] at hposted
  rw [setupAutoCompletion_trace, Nat.add_right_cancel hposted]
  rw [foldl_trace _ (fun itSchemas =>
    itSchemas.2.flatMap (fun itTables =>
      schemaTableEntry env itSchemas.1 itTables.1 ::
        itTables.2.flatMap (fun field =>
          [tableColumnEntry env itTables.1 field, columnEntry env field])))]
  · simp [apiClear, tableEntries, addEvents, List.append_assoc]
  · intro s itSchemas
    apply foldl_trace
    intro s itTables
    simp only []
    rw [foldl_trace _ (fun field =>
      [tableColumnEntry env itTables.1 field, columnEntry env field])]
    · simp [apiAdd, schemaTableEntry, addEvents]
    · intro s field
      simp [apiAdd, tableColumnEntry, columnEntry, addEvents]

theorem setTableNames_queue (env : Host) (tables : QualifiedTablesMap) (s : Lexer) :
    (setTableNames env tables s).queue = s.queue ++ [QueuedCall.prepare s.posted] := by
  have hposted : (setTableNames env tables s).posted = s.posted + 1 :=
    setTableNames_posted env tables s
  unfold setTableNames at hposted ⊢
  simp only [] at hposted ⊢
  rw [setupAutoCompletion_posted] at hposted
  rw [setupAutoCompletion_queue, Nat.add_right_cancel hposted]
  congr 1
  rw [foldl_keeps _ (fun s => s.queue)]
  · simp [apiClear]
  · intro s itSchemas
    apply foldl_keeps _ (fun s => s.queue)
    intro s itTables
    simp only []
    rw [foldl_keeps _ (fun s => s.queue)]
    · simp [apiAdd]
    · intro s field
      simp [apiAdd]

theorem construct_trace (env : Host) (st : Statics) :
    (construct env st).trace =
      addEvents (keywordEntries env ++ functionEntries env (functionPatterns env)) ++
        [Event.queued 0] := by
  simp [construct, setupAutoCompletion_trace]

theorem construct_queue (env : Host) (st : Statics) :
    (construct env st).queue = [QueuedCall.prepare 0] := by
  simp [construct, setupAutoCompletion_queue]

theorem construct_posted (env : Host) (st : Statics) :
    (construct env st).posted = 1 := by
  simp [construct, setupAutoCompletion_posted]

theorem deliveredTickets_addEvents (entries : List String) :
    deliveredTickets (addEvents entries) = [] := by
  induction entries with
  | nil => rfl
  | cons e l ih =>
    show deliveredTickets (Event.apiAdd e :: addEvents l) = []
    unfold deliveredTickets at ih ⊢
    rw [List.filterMap_cons]
    exact ih

theorem postedTickets_addEvents (entries : List String) :
    postedTickets (addEvents entries) = [] := by
  induction entries with
  | nil => rfl
  | cons e l ih =>
    show postedTickets (Event.apiAdd e :: addEvents l) = []
    unfold postedTickets at ih ⊢
    rw [List.filterMap_cons]
    exact ih

theorem deliveredTickets_append (a b : List Event) :
    deliveredTickets (a ++ b) = deliveredTickets a ++ deliveredTickets b := by
  unfold deliveredTickets
  rw [List.filterMap_append]

theorem postedTickets_append (a b : List Event) :
    postedTickets (a ++ b) = postedTickets a ++ postedTickets b := by
  unfold postedTickets
  rw [List.filterMap_append]

theorem processEvent_cons (s : Lexer) (c : QueuedCall) (rest : List QueuedCall)
    (h : s.queue = c :: rest) :
    (processEvent s).queue = rest ∧
      (processEvent s).trace = s.trace ++ [Event.apiPrepare c.ticket] ∧
      (processEvent s).posted = s.posted := by
  unfold processEvent
  rw [h]
  cases c
  exact ⟨rfl, rfl, rfl⟩

theorem processEvent_nil (s : Lexer) (h : s.queue = []) : processEvent s = s := by
  unfold processEvent
  rw [h]

theorem processEvent_iterate (n : Nat) (s : Lexer) (hn : n ≤ s.queue.length) :
    (processEvent^[n] s).queue = s.queue.drop n ∧
      (processEvent^[n] s).trace =
        s.trace ++ (s.queue.take n).map (fun c => Event.apiPrepare c.ticket) := by
  induction n generalizing s with
  | zero => simp
  | succ n ih =>
    rw [Function.iterate_succ_apply]
    cases hq : s.queue with
    | nil => rw [hq] at hn; simp at hn
    | cons c rest =>
      have hstep := processEvent_cons s c rest hq
      have hlen : n ≤ (processEvent s).queue.length := by
        rw [hstep.1]; rw [hq] at hn; simpa using hn
      have hrec := ih (processEvent s) hlen
      rw [hrec.1, hrec.2, hstep.1, hstep.2.1]
      refine ⟨by simp, ?_⟩
      simp [List.append_assoc]

theorem processEvent_autocompleteApi (s : Lexer) :
    (processEvent s).autocompleteApi = s.autocompleteApi ∧
      (processEvent s).listFunctions = s.listFunctions := by
  unfold processEvent
  split
  · exact ⟨rfl, rfl⟩
  · exact ⟨rfl, rfl⟩

/-- The index after a sequence of calls holds the table-derived entries of the most recent
map, then the keyword entries, then the function entries. -/
theorem run_autocompleteApi (env : Host) (calls : List Call) (s : Lexer)
    (t0 : QualifiedTablesMap)
    (hs : s.autocompleteApi = tableEntries env t0 ++ keywordEntries env ++
      functionEntries env (functionPatterns env))
    (hf : s.listFunctions = (functionPatterns env).map Prod.fst) :
    (run env calls s).autocompleteApi =
        tableEntries env (lastTables t0 calls) ++ keywordEntries env ++
          functionEntries env (functionPatterns env) ∧
      (run env calls s).listFunctions = (functionPatterns env).map Prod.fst := by
  induction calls generalizing s t0 with
  | nil => exact ⟨hs, hf⟩
  | cons c rest ih =>
    cases c with
    | setTableNames t =>
      exact ih (setTableNames env t s) t (setTableNames_autocompleteApi env t s)
        (setTableNames_listFunctions env t s)
    | keywords set =>
      exact ih (keywords env set s).2 t0
        (by rw [keywords_autocompleteApi, hs]) (by rw [keywords_listFunctions, hf])
    | processEvent =>
      exact ih (processEvent s) t0
        (by rw [(processEvent_autocompleteApi s).1, hs])
        (by rw [(processEvent_autocompleteApi s).2, hf])

theorem lastTables_setTableNames (t0 t : QualifiedTablesMap) (ts : List QualifiedTablesMap) :
    lastTables t0 ((ts ++ [t]).map Call.setTableNames) = t := by
  unfold lastTables
  rw [List.map_append, List.foldl_append]
  rfl

/-! ## Tickets: the order of the queued calls -/

theorem keywords_queue (env : Host) (set : Int) (s : Lexer) :
    (keywords env set s).2.queue = s.queue ∧ (keywords env set s).2.trace = s.trace ∧
      (keywords env set s).2.posted = s.posted := by
  unfold keywords
  simp only []
  split_ifs <;> exact ⟨rfl, rfl, rfl⟩

theorem countSetTableNames_cons (c : Call) (rest : List Call) :
    countSetTableNames (c :: rest) =
      (match c with
        | Call.setTableNames _ => 1
        | _ => 0) + countSetTableNames rest := by
  unfold countSetTableNames
  cases c <;> simp [List.filter_cons]
  omega

/-- In every run the calls are queued with the tickets 0, 1, 2, ... and the tickets
already delivered, followed by those still waiting, are these tickets in the same order. -/
theorem run_tickets (env : Host) (calls : List Call) (s : Lexer)
    (h1 : postedTickets s.trace = List.range s.posted)
    (h2 : deliveredTickets s.trace ++ s.queue.map QueuedCall.ticket = List.range s.posted) :
    (run env calls s).posted = s.posted + countSetTableNames calls ∧
      postedTickets (run env calls s).trace = List.range (run env calls s).posted ∧
      deliveredTickets (run env calls s).trace ++
          (run env calls s).queue.map QueuedCall.ticket =
        List.range (run env calls s).posted := by
  induction calls generalizing s with
  | nil => exact ⟨by simp [run, countSetTableNames], h1, h2⟩
  | cons c rest ih =>
    have hstep : postedTickets (step env s c).trace = List.range (step env s c).posted ∧
        deliveredTickets (step env s c).trace ++
            (step env s c).queue.map QueuedCall.ticket =
          List.range (step env s c).posted ∧
        (step env s c).posted = s.posted +
          (match c with
            | Call.setTableNames _ => 1
            | _ => 0) := by
      cases c with
      | setTableNames t =>
        show postedTickets (setTableNames env t s).trace =
            List.range (setTableNames env t s).posted ∧
          deliveredTickets (setTableNames env t s).trace ++
              (setTableNames env t s).queue.map QueuedCall.ticket =
            List.range (setTableNames env t s).posted ∧
          (setTableNames env t s).posted = s.posted + 1
        rw [setTableNames_trace, setTableNames_queue, setTableNames_posted]
        refine ⟨?_, ?_, rfl⟩
        · rw [postedTickets_append, postedTickets_append, postedTickets_append,
            postedTickets_addEvents, h1, List.range_succ]
          simp [postedTickets]
        · rw [deliveredTickets_append, deliveredTickets_append, deliveredTickets_append,
            deliveredTickets_addEvents, List.map_append, List.range_succ, ← h2]
          simp [deliveredTickets, QueuedCall.ticket]
      | keywords set =>
        show postedTickets (keywords env set s).2.trace =
            List.range (keywords env set s).2.posted ∧
          deliveredTickets (keywords env set s).2.trace ++
              (keywords env set s).2.queue.map QueuedCall.ticket =
            List.range (keywords env set s).2.posted ∧
          (keywords env set s).2.posted = s.posted + 0
        obtain ⟨hq, ht, hp⟩ := keywords_queue env set s
        rw [hq, ht, hp]
        exact ⟨h1, h2, rfl⟩
      | processEvent =>
        show postedTickets (processEvent s).trace = List.range (processEvent s).posted ∧
          deliveredTickets (processEvent s).trace ++
              (processEvent s).queue.map QueuedCall.ticket =
            List.range (processEvent s).posted ∧
          (processEvent s).posted = s.posted + 0
        cases hq : s.queue with
        | nil =>
          rw [processEvent_nil s hq]
          exact ⟨h1, h2, rfl⟩
        | cons c rest2 =>
          obtain ⟨hq2, ht2, hp2⟩ := processEvent_cons s c rest2 hq
          rw [hq2, ht2, hp2]
          refine ⟨?_, ?_, rfl⟩
          · rw [postedTickets_append, h1]
            simp [postedTickets]
          · rw [deliveredTickets_append, ← h2, hq]
            simp [deliveredTickets]
    have hrec := ih (step env s c) hstep.1 hstep.2.1
    show (run env rest (step env s c)).posted = s.posted + countSetTableNames (c :: rest) ∧
      postedTickets (run env rest (step env s c)).trace =
        List.range (run env rest (step env s c)).posted ∧
      deliveredTickets (run env rest (step env s c)).trace ++
          (run env rest (step env s c)).queue.map QueuedCall.ticket =
        List.range (run env rest (step env s c)).posted
    refine ⟨?_, hrec.2.1, hrec.2.2⟩
    rw [hrec.1, hstep.2.2, countSetTableNames_cons]
    omega

theorem construct_tickets (env : Host) (st : Statics) :
    postedTickets (construct env st).trace = List.range (construct env st).posted ∧
      deliveredTickets (construct env st).trace ++
          (construct env st).queue.map QueuedCall.ticket =
        List.range (construct env st).posted := by
  rw [construct_trace, construct_queue, construct_posted, postedTickets_append,
    deliveredTickets_append, postedTickets_addEvents, deliveredTickets_addEvents]
  exact ⟨rfl, rfl⟩

/-- Delivering everything that waits runs the waiting calls in queue order. -/
theorem processEvent_all (s : Lexer) :
    (processEvent^[s.queue.length] s).queue = [] ∧
      deliveredTickets (processEvent^[s.queue.length] s).trace =
        deliveredTickets s.trace ++ s.queue.map QueuedCall.ticket := by
  have h := processEvent_iterate s.queue.length s (Nat.le_refl _)
  refine ⟨by rw [h.1]; simp, ?_⟩
  rw [h.2, deliveredTickets_append, List.take_length]
  congr 1
  generalize s.queue = q
  induction q with
  | nil => rfl
  | cons c q ih =>
    unfold deliveredTickets at ih ⊢
    rw [List.map_cons, List.filterMap_cons, List.map_cons]
    simp only []
    rw [ih]

/-! ## The C string of a text -/

theorem toLowerUnicode_no_nul (lower : Char → List Char)
    (hl : ∀ c : Char, 128 ≤ c.toNat → nul ∉ lower c) (q : String) (h : nul ∉ q.data) :
    nul ∉ (toLowerUnicode lower q).data := by
  intro hm
  unfold toLowerUnicode at hm
  obtain ⟨c, hc, hcn⟩ := List.mem_flatMap.mp hm
  by_cases hlt : c.toNat < 128
  · rw [if_pos hlt] at hcn
    have hcc : nul = c.toLower := by simpa using hcn
    exact toLower_ne_nul c (fun hcc2 => h (hcc2 ▸ hc)) hcc.symm
  · rw [if_neg hlt] at hcn
    exact hl c (by omega) hcn

/-- The text `constData` keeps is the part of the text before its first NUL character. -/
theorem constData_cut (q : String) :
    ∃ rest : List Char, q.data = (constData q).data ++ rest ∧ nul ∉ (constData q).data ∧
      (rest = [] ∨ ∃ tail : List Char, rest = nul :: tail) := by
  unfold constData
  show ∃ rest : List Char, q.data = List.takeWhile (fun c => c != nul) q.data ++ rest ∧
    nul ∉ List.takeWhile (fun c => c != nul) q.data ∧
    (rest = [] ∨ ∃ tail : List Char, rest = nul :: tail)
  generalize q.data = l
  induction l with
  | nil => exact ⟨[], rfl, by simp, Or.inl rfl⟩
  | cons c l ih =>
    by_cases hc : c = nul
    · refine ⟨c :: l, by simp [List.takeWhile_cons, hc], by simp [List.takeWhile_cons, hc],
        Or.inr ⟨l, by rw [hc]⟩⟩
    · obtain ⟨rest, h1, h2, h3⟩ := ih
      have hne : (c != nul) = true := by simpa using hc
      refine ⟨rest, ?_, ?_, h3⟩
      · rw [List.takeWhile_cons, if_pos hne, List.cons_append, ← h1]
      · rw [List.takeWhile_cons, if_pos hne]
        intro hm
        rcases List.mem_cons.mp hm with h | h
        · exact hc h.symm
        · exact h2 h

/-! ## Catalog entries by name -/

theorem core_mem_functionPatterns (env : Host) (p : String × String)
    (hp : p ∈ coreFunctionPatterns) : (p.1, env.tr p.2) ∈ functionPatterns env := by
  have hm : (p.1, env.tr p.2) ∈ coreFunctionPatterns.map (fun q => (q.1, env.tr q.2)) :=
    List.mem_map_of_mem (fun q : String × String => (q.1, env.tr q.2)) hp
  unfold functionPatterns
  simp only []
  split
  · exact List.mem_append_left _ hm
  · exact hm

theorem abs_mem_core :
    ("abs", "(X) The abs(X) function returns the absolute value of the numeric argument X.") ∈
      coreFunctionPatterns := by
  unfold coreFunctionPatterns
  exact List.mem_cons_self _ _

theorem acos_mem_math :
    ("acos", "(X) Return the arccosine of X. The result is in radians.") ∈
      mathFunctionPatterns := by
  unfold mathFunctionPatterns
  exact List.mem_cons_self _ _

/-! ## The table catalog -/

/-- C1: on a freshly constructed lexer, `setTableNames t1` followed by `setTableNames t2`
leaves the same completion index and the same `listTables` (and the same `listFunctions`)
as `setTableNames t2` alone, the host (keyword-case setting, capability gate) being the
same throughout: nothing that comes only from `t1` survives. -/
theorem setTableNames_replaces_catalog (env : Host) (st : Statics)
    (t1 t2 : QualifiedTablesMap) :
    (setTableNames env t2 (setTableNames env t1 (construct env st))).autocompleteApi =
        (setTableNames env t2 (construct env st)).autocompleteApi ∧
      (setTableNames env t2 (setTableNames env t1 (construct env st))).listTables =
        (setTableNames env t2 (construct env st)).listTables ∧
      (setTableNames env t2 (setTableNames env t1 (construct env st))).listFunctions =
        (setTableNames env t2 (construct env st)).listFunctions := by
  refine ⟨?_, ?_, ?_⟩
  · rw [setTableNames_autocompleteApi, setTableNames_autocompleteApi]
  · rw [setTableNames_listTables, setTableNames_listTables]
  · rw [setTableNames_listFunctions, setTableNames_listFunctions]


/-- C5: after `setTableNames t` the completion index starts with the table-derived
entries of `t`, followed by the keyword and function entries; it holds, for every schema,
table and column of `t`, the entries `schema.table`, `table.column` and the bare column;
the table-derived entries number one per table plus two per column; and `listTables`
holds one name per (schema, table) pair in iteration order. -/
theorem setTableNames_adds_three_entries (env : Host) (t : QualifiedTablesMap) (s : Lexer) :
    (setTableNames env t s).autocompleteApi =
        tableEntries env t ++ keywordEntries env ++
          functionEntries env (functionPatterns env) ∧
      (∀ schema ∈ t, ∀ table ∈ schema.2,
        schema.1 ++ "?" ++ number env.ApiCompleterIconIdSchema ++ "." ++
            table.1 ++ "?" ++ number env.ApiCompleterIconIdTable ∈
          (setTableNames env t s).autocompleteApi ∧
        ∀ column ∈ table.2,
          table.1 ++ "?" ++ number env.ApiCompleterIconIdTable ++ "." ++
              column ++ "?" ++ number env.ApiCompleterIconIdColumn ∈
            (setTableNames env t s).autocompleteApi ∧
          column ++ "?" ++ number env.ApiCompleterIconIdColumn ∈
            (setTableNames env t s).autocompleteApi) ∧
      (tableEntries env t).length =
        (t.map (fun schema =>
          (schema.2.map (fun table => 1 + 2 * table.2.length)).sum)).sum ∧
      (setTableNames env t s).listTables =
        t.flatMap (fun schema => schema.2.map Prod.fst) := by
  refine ⟨setTableNames_autocompleteApi env t s, ?_, tableEntries_length env t,
    setTableNames_listTables env t s⟩
  intro schema hs table ht
  rw [setTableNames_autocompleteApi]
  refine ⟨?_, ?_⟩
  · apply List.mem_append_left
    apply List.mem_append_left
    unfold tableEntries
    rw [List.mem_flatMap]
    refine ⟨schema, hs, ?_⟩
    rw [List.mem_flatMap]
    exact ⟨table, ht, List.mem_cons_self _ _⟩
  · intro column hc
    have hmem : ∀ e ∈ [tableColumnEntry env table.1 column, columnEntry env column],
        e ∈ tableEntries env t := by
      intro e he
      unfold tableEntries
      rw [List.mem_flatMap]
      refine ⟨schema, hs, ?_⟩
      rw [List.mem_flatMap]
      refine ⟨table, ht, List.mem_cons_of_mem _ ?_⟩
      rw [List.mem_flatMap]
      exact ⟨column, hc, he⟩
    refine ⟨?_, ?_⟩
    · apply List.mem_append_left
      apply List.mem_append_left
      exact hmem _ (List.mem_cons_self _ _)
    · apply List.mem_append_left
      apply List.mem_append_left
      exact hmem _ (List.mem_cons_of_mem _ (List.mem_cons_self _ _))

/-- C6: `setupAutoCompletion` appends to the completion index the keyword entries and
then, for every entry (name, description) of the function catalog in order, the two
entries `name?<icon>description` and `NAME?<icon>description`; `listFunctions` becomes the
names of the catalog in order. For a catalog of `n` entries that is `2 * n` function
entries and `n` names. The upper-case names are spelled out for the whole catalog, from
`ABS` to `TRUNC`, and the two entries of `abs` are in the index under every host. -/
theorem setupAutoCompletion_adds_two_entries_per_function (env : Host) (s : Lexer) :
    (setupAutoCompletion env s).autocompleteApi =
        s.autocompleteApi ++ keywordEntries env ++
          (functionPatterns env).flatMap (fun p =>
            [p.1 ++ "?" ++ number env.ApiCompleterIconIdFunction ++ p.2,
             toUpper p.1 ++ "?" ++ number env.ApiCompleterIconIdFunction ++ p.2]) ∧
      (setupAutoCompletion env s).listFunctions = (functionPatterns env).map Prod.fst ∧
      (setupAutoCompletion env s).autocompleteApi.length =
        s.autocompleteApi.length + keywordPatterns.length +
          2 * (functionPatterns env).length ∧
      (setupAutoCompletion env s).listFunctions.length = (functionPatterns env).length ∧
      (∀ p ∈ functionPatterns env,
        p.1 ∈ (coreFunctionPatterns ++ mathFunctionPatterns).map Prod.fst) ∧
      (coreFunctionPatterns ++ mathFunctionPatterns).map (fun p => toUpper p.1) = [
      "ABS", "CHANGES", "CHAR", "COALESCE", "CONCAT", "CONCAT_WS", "FORMAT", "GLOB", "IFNULL",
      "INSTR", "HEX", "IIF", "LAST_INSERT_ROWID", "LENGTH", "LIKE", "LIKE", "LIKELIHOOD",
      "LIKELY", "LOAD_EXTENSION", "LOAD_EXTENSION", "LOWER", "LTRIM", "LTRIM", "MAX", "MIN",
      "NULLIF", "OCTET_LENGTH", "PRINTF", "QUOTE", "RANDOM", "RANDOMBLOB", "REPLACE", "ROUND",
      "ROUND", "RTRIM", "RTRIM", "SOUNDEX", "SUBSTR", "SUBSTR", "TOTAL_CHANGES", "TRIM",
      "TRIM", "TYPEOF", "UNHEX", "UNHEX", "UNICODE", "UNLIKELY", "UPPER", "ZEROBLOB", "DATE",
      "TIME", "DATETIME", "JULIANDAY", "STRFTIME", "AVG", "COUNT", "GROUP_CONCAT",
      "GROUP_CONCAT", "STRING_AGG", "MAX", "MIN", "SUM", "TOTAL", "ROW_NUMBER", "RANK",
      "DENSE_RANK", "PERCENT_RANK", "CUME_DIST", "NTILE", "LAG", "LAG", "LAG", "LEAD", "LEAD",
      "LEAD", "FIRST_VALUE", "LAST_VALUE", "NTH_VALUE", "ACOS", "ACOSH", "ASIN", "ASINH",
      "ATAN", "ATAN2", "ATANH", "CEIL", "CEILING", "COS", "COSH", "DEGREES", "EXP", "FLOOR",
      "LN", "LOG", "LOG", "LOG10", "LOG2", "MOD", "PI", "POW", "POWER", "RADIANS", "SIN",
      "SINH", "SQRT", "TAN", "TANH", "TRUNC"] ∧
      "abs" ++ "?" ++ number env.ApiCompleterIconIdFunction ++
          env.tr "(X) The abs(X) function returns the absolute value of the numeric argument X." ∈
        (setupAutoCompletion env s).autocompleteApi ∧
      "ABS" ++ "?" ++ number env.ApiCompleterIconIdFunction ++
          env.tr "(X) The abs(X) function returns the absolute value of the numeric argument X." ∈
        (setupAutoCompletion env s).autocompleteApi := by
  have habs := core_mem_functionPatterns env _ abs_mem_core
  have hup : toUpper "abs" = "ABS" := by decide
  refine ⟨setupAutoCompletion_autocompleteApi env s,
    setupAutoCompletion_listFunctions env s, ?_, ?_, ?_, ?_, ?_, ?_⟩
  · rw [setupAutoCompletion_autocompleteApi, List.length_append, List.length_append,
      functionEntries_length]
    simp [keywordEntries]
  · rw [setupAutoCompletion_listFunctions, List.length_map]
  · intro p hp
    obtain ⟨q, hq, hqp⟩ := functionPatterns_name_mem env p hp
    rw [← hqp]
    exact List.mem_map_of_mem Prod.fst hq
  · set_option maxRecDepth 100000 in decide
  · rw [setupAutoCompletion_autocompleteApi]
    apply List.mem_append_right
    exact functionEntry_mem_functionEntries env _ _ habs _ (List.mem_cons_self _ _)
  · rw [setupAutoCompletion_autocompleteApi, ← hup]
    apply List.mem_append_right
    exact functionEntry_mem_functionEntries env _ _ habs _
      (List.mem_cons_of_mem _ (List.mem_cons_self _ _))

/-! ## Keywords in the completion index -/

/-- C2: for both values of the `upper_keywords` setting and every keyword `k` of
`keywordPatterns`, the completion index of a constructed lexer, and the index after every
`setTableNames`, holds the entry of `k` in the configured case (upper case, `?` and the
keyword icon id when the setting is on; lower case, `?` and the keyword icon id when it is
off) and does not hold the entry of `k` in the other case. The icon ids are those of the
header: the renderings of the table and column ids differ from that of the keyword id, and
the rendering of the function id does not start that of the keyword id. -/
theorem keyword_entries_in_configured_case (env : Host)
    (hF : ∀ d : String,
      number env.ApiCompleterIconIdFunction ++ d ≠ number env.ApiCompleterIconIdKeyword)
    (hT : number env.ApiCompleterIconIdTable ≠ number env.ApiCompleterIconIdKeyword)
    (hC : number env.ApiCompleterIconIdColumn ≠ number env.ApiCompleterIconIdKeyword)
    (st : Statics) (t : QualifiedTablesMap) (s : Lexer) (index : List String)
    (hindex : index = (construct env st).autocompleteApi ∨
      index = (setTableNames env t s).autocompleteApi)
    (k : String) (hk : k ∈ keywordPatterns) :
    (env.upper_keywords = true →
      toUpper k ++ "?" ++ number env.ApiCompleterIconIdKeyword ∈ index ∧
      toLower k ++ "?" ++ number env.ApiCompleterIconIdKeyword ∉ index) ∧
    (env.upper_keywords = false →
      toLower k ++ "?" ++ number env.ApiCompleterIconIdKeyword ∈ index ∧
      toUpper k ++ "?" ++ number env.ApiCompleterIconIdKeyword ∉ index) := by
  have hshape : ∃ t0 : QualifiedTablesMap, index =
      tableEntries env t0 ++ keywordEntries env ++
        functionEntries env (functionPatterns env) := by
    rcases hindex with h | h
    · exact ⟨[], by rw [h, construct_autocompleteApi]; rfl⟩
    · exact ⟨t, by rw [h, setTableNames_autocompleteApi]⟩
  obtain ⟨t0, ht0⟩ := hshape
  have hin : keywordEntry env k ∈ index := by
    rw [ht0]
    apply List.mem_append_left
    apply List.mem_append_right
    exact List.mem_map_of_mem _ hk
  have hout : ∀ o : String, marker ∉ o.data →
      (∀ k2 ∈ keywordPatterns, o ≠ (if env.upper_keywords then k2 else toLower k2)) →
      o ++ "?" ++ number env.ApiCompleterIconIdKeyword ∉ index := by
    intro o ho hne hm
    have hsep := keyword_shaped_not_in_tables_functions env hF hT hC t0 o ho
    rw [ht0] at hm
    rcases List.mem_append.mp hm with h | h
    · rcases List.mem_append.mp h with h | h
      · exact hsep.1 h
      · obtain ⟨k2, hk2, he⟩ := List.mem_map.mp h
        unfold keywordEntry at he
        have hk2m : marker ∉ (if env.upper_keywords then k2 else toLower k2).data := by
          split
          · exact (keywordPatterns_no_marker k2 hk2).1
          · exact (keywordPatterns_no_marker k2 hk2).2
        exact hne k2 hk2 (entry_split_first _ _ _ _ hk2m ho he).1.symm
    · exact hsep.2 h
  rw [keywordPatterns_upper k hk]
  refine ⟨?_, ?_⟩
  · intro hu
    refine ⟨by simpa [keywordEntry, hu] using hin, ?_⟩
    apply hout _ (keywordPatterns_no_marker k hk).2
    intro k2 hk2 heq
    rw [hu] at heq
    simp only [if_true] at heq
    exact keywordPatterns_lower_not_keyword k hk (by rw [heq]; exact hk2)
  · intro hu
    refine ⟨by simpa [keywordEntry, hu] using hin, ?_⟩
    apply hout _ (keywordPatterns_no_marker k hk).1
    intro k2 hk2 heq
    rw [hu] at heq
    simp only [Bool.false_eq_true, if_false] at heq
    exact keywordPatterns_lower_not_keyword k2 hk2 (by rw [← heq]; exact hk)


/-- An instance at `sampleHost`, whose icon ids are 1 to 5: the index of a constructed lexer
holds `SELECT?1` and not `select?1`. -/
theorem keyword_entries_in_configured_case_witness :
    (∀ d : String, number sampleHost.ApiCompleterIconIdFunction ++ d ≠
        number sampleHost.ApiCompleterIconIdKeyword) ∧
      "SELECT" ∈ keywordPatterns ∧
      (sampleHost.upper_keywords = true →
        toUpper "SELECT" ++ "?" ++ number sampleHost.ApiCompleterIconIdKeyword ∈
            (construct sampleHost Statics.fresh).autocompleteApi ∧
          toLower "SELECT" ++ "?" ++ number sampleHost.ApiCompleterIconIdKeyword ∉
            (construct sampleHost Statics.fresh).autocompleteApi) :=
  have hF : ∀ d : String, number sampleHost.ApiCompleterIconIdFunction ++ d ≠
      number sampleHost.ApiCompleterIconIdKeyword := by
    intro d h
    have hd : ("2" ++ d).data = ("1" : String).data := congrArg String.data h
    rw [String.data_append] at hd
    have hc : ("2" : String).data ++ d.data = Char.ofNat 50 :: d.data := rfl
    rw [hc] at hd
    have hh := (List.cons.inj hd).1
    exact absurd hh (by decide)
  ⟨hF, by decide,
    (keyword_entries_in_configured_case sampleHost hF (by decide) (by decide)
      Statics.fresh [] (construct sampleHost Statics.fresh)
      (construct sampleHost Statics.fresh).autocompleteApi (Or.inl rfl)
      "SELECT" (by decide)).1⟩

/-! ## The function catalog -/

/-- C3: after `setupAutoCompletion` the math functions `acos` ... `trunc`, thirty names
spelled out below, are in the function catalog exactly when `enabledMathFunctions` holds. With the gate on, `listFunctions` is the core names
followed by the math names and the index ends with the core entries followed by the math
entries; with the gate off both stop after the core catalog. A math name is in
`listFunctions`, and a math entry is among the entries `setupAutoCompletion` added, if and
only if the gate is on; so are the two entries of `acos` in the index of a constructed
lexer. -/
theorem math_functions_iff_gate (env : Host) (s : Lexer) (st : Statics) :
    (enabledMathFunctions env = true →
      (setupAutoCompletion env s).listFunctions =
          coreFunctionPatterns.map Prod.fst ++ mathFunctionPatterns.map Prod.fst ∧
        (setupAutoCompletion env s).autocompleteApi =
          s.autocompleteApi ++ keywordEntries env ++
            (functionEntries env (coreFunctionPatterns.map (fun p => (p.1, env.tr p.2))) ++
             functionEntries env (mathFunctionPatterns.map (fun p => (p.1, env.tr p.2))))) ∧
    (enabledMathFunctions env = false →
      (setupAutoCompletion env s).listFunctions = coreFunctionPatterns.map Prod.fst ∧
        (setupAutoCompletion env s).autocompleteApi =
          s.autocompleteApi ++ keywordEntries env ++
            functionEntries env (coreFunctionPatterns.map (fun p => (p.1, env.tr p.2)))) ∧
    (∀ p ∈ mathFunctionPatterns,
      (p.1 ∈ (setupAutoCompletion env s).listFunctions ↔ enabledMathFunctions env = true) ∧
      ∀ e ∈ functionEntry env (p.1, env.tr p.2),
        (e ∈ keywordEntries env ++ functionEntries env (functionPatterns env) ↔
          enabledMathFunctions env = true)) ∧
    mathFunctionPatterns.map Prod.fst = [
      "acos", "acosh", "asin", "asinh", "atan", "atan2", "atanh", "ceil", "ceiling", "cos",
      "cosh", "degrees", "exp", "floor", "ln", "log", "log", "log10", "log2", "mod", "pi",
      "pow", "power", "radians", "sin", "sinh", "sqrt", "tan", "tanh", "trunc"] ∧
    (∀ n ∈ [
      "acos", "acosh", "asin", "asinh", "atan", "atan2", "atanh", "ceil", "ceiling", "cos",
      "cosh", "degrees", "exp", "floor", "ln", "log", "log", "log10", "log2", "mod", "pi",
      "pow", "power", "radians", "sin", "sinh", "sqrt", "tan", "tanh", "trunc"],
      (n ∈ (setupAutoCompletion env s).listFunctions ↔ enabledMathFunctions env = true)) ∧
    ("acos" ++ "?" ++ number env.ApiCompleterIconIdFunction ++
          env.tr "(X) Return the arccosine of X. The result is in radians." ∈
        (construct env st).autocompleteApi ↔ enabledMathFunctions env = true) ∧
    ("ACOS" ++ "?" ++ number env.ApiCompleterIconIdFunction ++
          env.tr "(X) Return the arccosine of X. The result is in radians." ∈
        (construct env st).autocompleteApi ↔ enabledMathFunctions env = true) := by
  have hnames : mathFunctionPatterns.map Prod.fst = [
      "acos", "acosh", "asin", "asinh", "atan", "atan2", "atanh", "ceil", "ceiling", "cos",
      "cosh", "degrees", "exp", "floor", "ln", "log", "log", "log10", "log2", "mod", "pi",
      "pow", "power", "radians", "sin", "sinh", "sqrt", "tan", "tanh", "trunc"] := by
    decide
  have hblock : ∀ p ∈ mathFunctionPatterns,
      (p.1 ∈ (setupAutoCompletion env s).listFunctions ↔ enabledMathFunctions env = true) ∧
      ∀ e ∈ functionEntry env (p.1, env.tr p.2),
        (e ∈ keywordEntries env ++ functionEntries env (functionPatterns env) ↔
          enabledMathFunctions env = true) := by
    intro p hp
    refine ⟨?_, ?_⟩
    · rw [setupAutoCompletion_listFunctions, functionPatterns_names]
      cases hg : enabledMathFunctions env
      · simp only [Bool.false_eq_true, if_false, List.append_nil, iff_false]
        intro hm
        obtain ⟨q, hq, hqp⟩ := List.mem_map.mp hm
        exact (math_names_not_core p hp q hq).1 hqp.symm
      · simp only [if_true, iff_true]
        exact List.mem_append_right _ (List.mem_map_of_mem _ hp)
    · intro e he
      cases hg : enabledMathFunctions env
      · simp only [Bool.false_eq_true, iff_false]
        rw [functionPatterns_gate_false env hg]
        exact math_entry_not_core env p hp e he
      · simp only [iff_true]
        rw [functionPatterns_gate_true env hg, functionEntries_append]
        apply List.mem_append_right
        apply List.mem_append_right
        exact functionEntry_mem_functionEntries env _ (p.1, env.tr p.2)
          (List.mem_map_of_mem (fun q : String × String => (q.1, env.tr q.2)) hp) e he
  have hup : toUpper "acos" = "ACOS" := by decide
  refine ⟨?_, ?_, hblock, hnames, ?_, ?_, ?_⟩
  · intro hg
    refine ⟨?_, ?_⟩
    · rw [setupAutoCompletion_listFunctions, functionPatterns_names, hg]
      rfl
    · rw [setupAutoCompletion_autocompleteApi, functionPatterns_gate_true env hg,
        functionEntries_append]
  · intro hg
    refine ⟨?_, ?_⟩
    · rw [setupAutoCompletion_listFunctions, functionPatterns_names, hg]
      simp
    · rw [setupAutoCompletion_autocompleteApi, functionPatterns_gate_false env hg]
  · intro n hn
    rw [← hnames] at hn
    obtain ⟨p, hp, hpn⟩ := List.mem_map.mp hn
    rw [← hpn]
    exact (hblock p hp).1
  · rw [construct_autocompleteApi]
    exact (hblock _ acos_mem_math).2 _ (List.mem_cons_self _ _)
  · rw [construct_autocompleteApi, ← hup]
    exact (hblock _ acos_mem_math).2 _ (List.mem_cons_of_mem _ (List.mem_cons_self _ _))

/-! ## Keyword sets -/

/-- C8, as stated, fails: after `setTableNames` with a table whose name has a NUL
character between `Ab` and `Cd`, `keywords(6)` returns `ab`, the lower-cased text before
the NUL, not the lower-cased name. -/
theorem keywords_set6_stops_at_nul :
    (keywords sampleHost 6
        (setTableNames sampleHost nulTables (construct sampleHost Statics.fresh))).1 =
        some "ab" ∧
      (keywords sampleHost 6
        (setTableNames sampleHost nulTables (construct sampleHost Statics.fresh))).1 ≠
        some (toLowerUnicode sampleHost.unicodeLower (join " " (tableNames nulTables))) := by
  rw [keywords_set6, setTableNames_listTables]
  decide

/-- C8, amended: `keywords(6)` called after `setTableNames t` and any calls other than
`setTableNames` returns the table names of `t`, joined by single spaces in `listTables`
order and lower-cased, cut before the first NUL character: the returned text holds no NUL,
and what follows it in the lower-cased names is nothing or starts with NUL. When no table
name holds a NUL (and the lower-case mapping of Qt yields none) it is the whole text. The
state before `setTableNames t` is arbitrary, so nothing cached from an earlier map is
returned: after a later `setTableNames t2` the call returns the names of `t2` on the same
terms. Lower-casing goes character by character, ASCII letters by the ASCII rule and the
others by the mapping of the host, and joining puts one space between two names. -/
theorem keywords_set6_returns_current_tables (env : Host) (s : Lexer)
    (t t2 : QualifiedTablesMap) (calls calls2 : List Call)
    (hcalls : ∀ c ∈ calls, c.keepsTables = true)
    (hcalls2 : ∀ c ∈ calls2, c.keepsTables = true) :
    (∃ (r : String) (rest : List Char),
      (keywords env 6 (run env calls (setTableNames env t s))).1 = some r ∧
      (toLowerUnicode env.unicodeLower (join " " (tableNames t))).data = r.data ++ rest ∧
      nul ∉ r.data ∧ (rest = [] ∨ ∃ tail : List Char, rest = nul :: tail)) ∧
    ((∀ n ∈ tableNames t, nul ∉ n.data) →
      (∀ c : Char, 128 ≤ c.toNat → nul ∉ env.unicodeLower c) →
      (keywords env 6 (run env calls (setTableNames env t s))).1 =
        some (toLowerUnicode env.unicodeLower (join " " (tableNames t)))) ∧
    (∃ (r : String) (rest : List Char),
      (keywords env 6 (run env calls2 (setTableNames env t2
        (keywords env 6 (run env calls (setTableNames env t s))).2))).1 = some r ∧
      (toLowerUnicode env.unicodeLower (join " " (tableNames t2))).data = r.data ++ rest ∧
      nul ∉ r.data ∧ (rest = [] ∨ ∃ tail : List Char, rest = nul :: tail)) ∧
    ((∀ n ∈ tableNames t2, nul ∉ n.data) →
      (∀ c : Char, 128 ≤ c.toNat → nul ∉ env.unicodeLower c) →
      (keywords env 6 (run env calls2 (setTableNames env t2
        (keywords env 6 (run env calls (setTableNames env t s))).2))).1 =
        some (toLowerUnicode env.unicodeLower (join " " (tableNames t2)))) ∧
    (∀ q : String, (toLowerUnicode env.unicodeLower q).data =
      q.data.flatMap (fun c => if c.toNat < 128 then [c.toLower] else env.unicodeLower c)) ∧
    (∀ (x y : String) (l : List String),
      join " " [x] = x ∧ join " " (x :: y :: l) = x ++ " " ++ join " " (y :: l)) := by
  have hcut : ∀ (s0 : Lexer) (t0 : QualifiedTablesMap) (calls0 : List Call),
      (∀ c ∈ calls0, c.keepsTables = true) →
      ∃ (r : String) (rest : List Char),
        (keywords env 6 (run env calls0 (setTableNames env t0 s0))).1 = some r ∧
        (toLowerUnicode env.unicodeLower (join " " (tableNames t0))).data = r.data ++ rest ∧
        nul ∉ r.data ∧ (rest = [] ∨ ∃ tail : List Char, rest = nul :: tail) := by
    intro s0 t0 calls0 h0
    obtain ⟨rest, h1, h2, h3⟩ :=
      constData_cut (toLowerUnicode env.unicodeLower (join " " (tableNames t0)))
    refine ⟨_, rest, ?_, h1, h2, h3⟩
    rw [keywords_set6, run_keepsTables_listTables env calls0 h0, setTableNames_listTables]
  have hwhole : ∀ (s0 : Lexer) (t0 : QualifiedTablesMap) (calls0 : List Call),
      (∀ c ∈ calls0, c.keepsTables = true) →
      (∀ n ∈ tableNames t0, nul ∉ n.data) →
      (∀ c : Char, 128 ≤ c.toNat → nul ∉ env.unicodeLower c) →
      (keywords env 6 (run env calls0 (setTableNames env t0 s0))).1 =
        some (toLowerUnicode env.unicodeLower (join " " (tableNames t0))) := by
    intro s0 t0 calls0 h0 hn hl
    rw [keywords_set6, run_keepsTables_listTables env calls0 h0, setTableNames_listTables,
      constData_of_no_nul _ (toLowerUnicode_no_nul _ hl _ (join_no_nul _ hn))]
  exact ⟨hcut s t calls hcalls, hwhole s t calls hcalls, hcut _ t2 calls2 hcalls2,
    hwhole _ t2 calls2 hcalls2, fun _ => rfl, fun _ _ _ => ⟨rfl, rfl⟩⟩

/-- An instance at `sampleHost`: three tables in `main`, two of them with letters outside
ASCII, give `album école σω`; then one table in `temp` gives `genre`. -/
theorem keywords_set6_returns_current_tables_witness :
    (keywords sampleHost 6 (run sampleHost [Call.keywords 6, Call.processEvent]
        (setTableNames sampleHost [("main", [("Album", ["Title"]), ("ÉCOLE", []), ("ΣΩ", [])])]
          (construct sampleHost Statics.fresh)))).1 = some "album école σω" ∧
      (keywords sampleHost 6 (run sampleHost [Call.keywords 7]
        (setTableNames sampleHost [("temp", [("Genre", [])])]
          (keywords sampleHost 6 (run sampleHost [Call.keywords 6, Call.processEvent]
            (setTableNames sampleHost
              [("main", [("Album", ["Title"]), ("ÉCOLE", []), ("ΣΩ", [])])]
              (construct sampleHost Statics.fresh)))).2))).1 = some "genre" :=
  have hlower : ∀ c : Char, 128 ≤ c.toNat → nul ∉ sampleHost.unicodeLower c := by
    intro c hc
    have hcn : c ≠ nul := by
      intro h
      rw [h] at hc
      exact absurd hc (by decide)
    show nul ∉ (if c = Char.ofNat 196 then [Char.ofNat 228]
      else if c = Char.ofNat 201 then [Char.ofNat 233]
      else if c = Char.ofNat 931 then [Char.ofNat 963]
      else if c = Char.ofNat 937 then [Char.ofNat 969]
      else [c])
    split_ifs
    · decide
    · decide
    · decide
    · decide
    · simpa using hcn.symm
  have h := keywords_set6_returns_current_tables sampleHost (construct sampleHost Statics.fresh)
    [("main", [("Album", ["Title"]), ("ÉCOLE", []), ("ΣΩ", [])])] [("temp", [("Genre", [])])]
    [Call.keywords 6, Call.processEvent] [Call.keywords 7] (by decide) (by decide)
  ⟨(h.2.1 (by decide) hlower).trans (by decide),
    (h.2.2.2.1 (by decide) hlower).trans (by decide)⟩

/-- C7: on a constructed lexer, after any calls, `keywords(1)` returns the entries of
`keywordPatterns` joined by single spaces and converted to lower case, in catalog order
(lower-casing the joined text and joining the lower-cased entries give the same text). The
text holds no upper-case letter, and it is the same for every host, so for both values of
`upper_keywords`, and for every sequence of calls, so for every table catalog. -/
theorem keywords_set1_lower_keywords (env env2 : Host) (calls calls2 : List Call) :
    (keywords env 1 (run env calls (construct env Statics.fresh))).1 =
        some (toLower (join " " keywordPatterns)) ∧
      toLower (join " " keywordPatterns) = join " " (keywordPatterns.map toLower) ∧
      (∀ c ∈ (toLower (join " " keywordPatterns)).data, c.isUpper = false) ∧
      (keywords env 1 (run env calls (construct env Statics.fresh))).1 =
        (keywords env2 1 (run env2 calls2 (construct env2 Statics.fresh))).1 := by
  have h1 := keywords_set1_of_cachesCurrent env _
    (run_cachesCurrent env calls _ (construct_cachesCurrent env))
  have h2 := keywords_set1_of_cachesCurrent env2 _
    (run_cachesCurrent env2 calls2 _ (construct_cachesCurrent env2))
  refine ⟨h1, toLower_join _, ?_, by rw [h1, h2]⟩
  rw [toLower_join]
  apply join_forall (fun c => c.isUpper = false) (by decide)
  intro n hn
  obtain ⟨k, hk, rfl⟩ := List.mem_map.mp hn
  exact keywordPatterns_lower_chars k hk

/-- C9: for a fixed host, so a fixed result of the capability gate, `keywords(7)` on a
constructed lexer returns the same text after every sequence of calls (`setTableNames`,
`keywords`, event delivery): the current `listFunctions` joined by single spaces, which is
the names of the function catalog in order and holds no upper-case letter. The value
cached by the first call is never stale. -/
theorem keywords_set7_never_stale (env : Host) (calls calls2 : List Call) :
    (keywords env 7 (run env calls (construct env Statics.fresh))).1 =
        some (join " " (run env calls (construct env Statics.fresh)).listFunctions) ∧
      (keywords env 7 (run env calls (construct env Statics.fresh))).1 =
        (keywords env 7 (run env calls2 (construct env Statics.fresh))).1 ∧
      (run env calls (construct env Statics.fresh)).listFunctions =
        (functionPatterns env).map Prod.fst ∧
      (∀ c ∈ (join " " (run env calls (construct env Statics.fresh)).listFunctions).data,
        c.isUpper = false) := by
  have hinv := run_cachesCurrent env calls _ (construct_cachesCurrent env)
  have h1 := keywords_set7_of_cachesCurrent env _ hinv
  have h2 := keywords_set7_of_cachesCurrent env _
    (run_cachesCurrent env calls2 _ (construct_cachesCurrent env))
  refine ⟨by rw [h1, hinv.1], by rw [h1, h2], hinv.1, ?_⟩
  rw [hinv.1]
  apply join_forall (fun c => c.isUpper = false) (by decide)
  intro n hn
  exact (functionNames_facts env n hn).2

/-- C10: for every `set` other than 1, 6 and 7, `keywords(set)` returns what the base
lexer returns for `set` and leaves the cached table-name string alone. No call fails: for
every `set` whatsoever the call returns, with a non-null string for 1, 6 and 7, and leaves
the completion index and both name lists as they were. -/
theorem keywords_other_sets_delegate (env : Host) (set : Int) (s : Lexer)
    (h1 : set ≠ 1) (h6 : set ≠ 6) (h7 : set ≠ 7) :
    (keywords env set s).1 = env.baseKeywords set ∧
      (keywords env set s).2.statics.tables = s.statics.tables ∧
      (∀ set2 : Int,
        ((set2 = 1 ∨ set2 = 6 ∨ set2 = 7) → (keywords env set2 s).1.isSome = true) ∧
        (keywords env set2 s).2.autocompleteApi = s.autocompleteApi ∧
        (keywords env set2 s).2.listTables = s.listTables ∧
        (keywords env set2 s).2.listFunctions = s.listFunctions) := by
  refine ⟨?_, ?_, ?_⟩
  · simp [keywords, h1, h6, h7]
  · simp [keywords, h1, h6, h7]
  · intro set2
    refine ⟨?_, keywords_autocompleteApi env set2 s, keywords_listTables env set2 s,
      keywords_listFunctions env set2 s⟩
    intro hset
    rcases hset with h | h | h <;> rw [h] <;> simp [keywords]

/-- An instance at `sampleHost`: set 5 is answered by the base lexer. -/
theorem keywords_other_sets_delegate_witness :
    (keywords sampleHost 5 (construct sampleHost Statics.fresh)).1 =
        sampleHost.baseKeywords 5 ∧
      sampleHost.baseKeywords 5 = some "dbms_output" ∧
      (keywords sampleHost 5 (construct sampleHost Statics.fresh)).2.statics.tables =
        (construct sampleHost Statics.fresh).statics.tables :=
  have h := keywords_other_sets_delegate sampleHost 5 (construct sampleHost Statics.fresh)
    (by decide) (by decide) (by decide)
  ⟨h.1, rfl, h.2.1⟩

/-! ## Word separators -/

/-- C4: `autoCompletionWordSeparators` returns the two-element list of `.` and the
reversal of `escapeIdentifier(".")`; the list depends on the host through that quoted dot
only, so it is the same on every call under one quoting configuration. Under the quoting
of the spec the second element is the closing quote, the dot and the opening quote: with
brackets `escapeIdentifier(".")` is `[.]` and the list is `.` and `].[`. -/
theorem autoCompletionWordSeparators_eq (env : Host) :
    autoCompletionWordSeparators env = [".", reverse (env.escapeIdentifier ".")] ∧
      (∀ env2 : Host, env2.escapeIdentifier "." = env.escapeIdentifier "." →
        autoCompletionWordSeparators env2 = autoCompletionWordSeparators env) ∧
      (∀ q : Quoting,
        autoCompletionWordSeparators { env with escapeIdentifier := escapeIdentifier q } =
          [".", String.mk [q.closing, Char.ofNat 46, q.opening]]) ∧
      escapeIdentifier squareBrackets "." = "[.]" ∧
      autoCompletionWordSeparators
        { env with escapeIdentifier := escapeIdentifier squareBrackets } = [".", "].["] := by
  refine ⟨rfl, ?_, ?_, by decide, rfl⟩
  · intro env2 h
    unfold autoCompletionWordSeparators
    simp only []
    rw [h]
  · intro q
    rfl

/-! ## The capability gate -/

/-- C12: `enabledMathFunctions` returns true if and only if the library version number is
at least 3035000 and one of the compile-option queries for `SQLITE_OMIT_COMPILEOPTION_DIAGS`
and `SQLITE_ENABLE_MATH_FUNCTIONS` returns 1. It is false for every version below 3035000,
whatever the compile options, and two hosts that agree on the version and on the two
queries get the same answer. -/
theorem enabledMathFunctions_iff (env : Host) :
    (enabledMathFunctions env = true ↔
      (env.libversion_number ≥ 3035000 ∧
        (env.compileoption_used "SQLITE_OMIT_COMPILEOPTION_DIAGS" = 1 ∨
         env.compileoption_used "SQLITE_ENABLE_MATH_FUNCTIONS" = 1))) ∧
    (env.libversion_number < 3035000 → enabledMathFunctions env = false) ∧
    (∀ env2 : Host,
      env2.libversion_number = env.libversion_number →
      env2.compileoption_used "SQLITE_OMIT_COMPILEOPTION_DIAGS" =
        env.compileoption_used "SQLITE_OMIT_COMPILEOPTION_DIAGS" →
      env2.compileoption_used "SQLITE_ENABLE_MATH_FUNCTIONS" =
        env.compileoption_used "SQLITE_ENABLE_MATH_FUNCTIONS" →
      enabledMathFunctions env2 = enabledMathFunctions env) := by
  refine ⟨?_, ?_, ?_⟩
  · simp [enabledMathFunctions, SQLITE_VER_NUMBER_3_35]
  · intro h
    have hn : ¬ (SQLITE_VER_NUMBER_3_35 ≤ env.libversion_number) := by
      unfold SQLITE_VER_NUMBER_3_35
      omega
    simp [enabledMathFunctions, hn]
  · intro env2 hv h1 h2
    unfold enabledMathFunctions
    rw [hv, h1, h2]

/-! ## The deferred prepare step -/

/-- C11: one invocation of `setupAutoCompletion` puts exactly one prepare call at the back
of the event queue, after all the `add` calls of that invocation, and runs no prepare
itself; so do the constructor and `setTableNames`, whose history is the `clear`, the `add`
calls and last the queueing. The queued calls carry tickets in the order they were made
(the constructor has ticket 0, the `k`-th `setTableNames` ticket `k`), and the event loop
runs the call at the head of the queue. In every state reached from a constructed lexer
the tickets already run followed by the tickets still waiting are 0, 1, 2, ... in this
order, so the queued prepares run in the order the calls were made, and once all waiting
calls are delivered every ticket has run in that order. -/
theorem setupAutoCompletion_queues_one_prepare (env : Host) (s : Lexer) (st : Statics)
    (t : QualifiedTablesMap) (calls : List Call) :
    ((setupAutoCompletion env s).queue = s.queue ++ [QueuedCall.prepare s.posted] ∧
      (setupAutoCompletion env s).posted = s.posted + 1 ∧
      (setupAutoCompletion env s).trace =
        s.trace ++ addEvents (keywordEntries env ++
          functionEntries env (functionPatterns env)) ++ [Event.queued s.posted] ∧
      deliveredTickets (setupAutoCompletion env s).trace = deliveredTickets s.trace) ∧
    ((construct env st).queue = [QueuedCall.prepare 0] ∧
      (construct env st).trace =
        addEvents (keywordEntries env ++ functionEntries env (functionPatterns env)) ++
          [Event.queued 0] ∧
      deliveredTickets (construct env st).trace = []) ∧
    ((setTableNames env t s).queue = s.queue ++ [QueuedCall.prepare s.posted] ∧
      (setTableNames env t s).posted = s.posted + 1 ∧
      (setTableNames env t s).trace =
        s.trace ++ [Event.apiClear] ++ addEvents (tableEntries env t ++ keywordEntries env ++
          functionEntries env (functionPatterns env)) ++ [Event.queued s.posted] ∧
      deliveredTickets (setTableNames env t s).trace = deliveredTickets s.trace) ∧
    (∀ (s2 : Lexer) (ticket : Nat) (rest : List QueuedCall),
      s2.queue = QueuedCall.prepare ticket :: rest →
        (processEvent s2).queue = rest ∧
        (processEvent s2).trace = s2.trace ++ [Event.apiPrepare ticket]) ∧
    ((run env calls (construct env st)).posted = 1 + countSetTableNames calls ∧
      postedTickets (run env calls (construct env st)).trace =
        List.range (1 + countSetTableNames calls) ∧
      deliveredTickets (run env calls (construct env st)).trace ++
          (run env calls (construct env st)).queue.map QueuedCall.ticket =
        List.range (1 + countSetTableNames calls) ∧
      (processEvent^[(run env calls (construct env st)).queue.length]
        (run env calls (construct env st))).queue = [] ∧
      deliveredTickets (processEvent^[(run env calls (construct env st)).queue.length]
        (run env calls (construct env st))).trace =
        List.range (1 + countSetTableNames calls)) ∧
    (deliveredTickets [Event.apiClear, Event.apiAdd "t?3", Event.queued 0,
        Event.apiPrepare 0, Event.queued 1, Event.apiPrepare 1] = [0, 1] ∧
      postedTickets [Event.apiClear, Event.apiAdd "t?3", Event.queued 0,
        Event.apiPrepare 0, Event.queued 1, Event.apiPrepare 1] = [0, 1] ∧
      countSetTableNames [Call.setTableNames [], Call.keywords 6, Call.processEvent,
        Call.setTableNames []] = 2) := by
  have hrun := run_tickets env calls (construct env st) (construct_tickets env st).1
    (construct_tickets env st).2
  rw [construct_posted] at hrun
  have hall := processEvent_all (run env calls (construct env st))
  refine ⟨⟨setupAutoCompletion_queue env s, setupAutoCompletion_posted env s,
      setupAutoCompletion_trace env s, ?_⟩,
    ⟨construct_queue env st, construct_trace env st, ?_⟩,
    ⟨setTableNames_queue env t s, setTableNames_posted env t s,
      setTableNames_trace env t s, ?_⟩, ?_,
    ⟨hrun.1, ?_, ?_, hall.1, ?_⟩, ⟨rfl, rfl, rfl⟩⟩
  · rw [setupAutoCompletion_trace, deliveredTickets_append, deliveredTickets_append,
      deliveredTickets_addEvents]
    simp [deliveredTickets]
  · rw [construct_trace, deliveredTickets_append, deliveredTickets_addEvents]
    rfl
  · rw [setTableNames_trace, deliveredTickets_append, deliveredTickets_append,
      deliveredTickets_append, deliveredTickets_addEvents]
    simp [deliveredTickets]
  · intro s2 ticket rest h2
    have h := processEvent_cons s2 _ rest h2
    exact ⟨h.1, h.2.1⟩
  · rw [← hrun.1]
    exact hrun.2.1
  · rw [← hrun.1]
    exact hrun.2.2
  · rw [hall.2, ← hrun.1]
    exact hrun.2.2

/-! ## The index in every reachable state -/

/-- C13: in every state reached from a constructed lexer by any calls (`setTableNames`,
`keywords`, event delivery), the completion index is the table-derived entries of the most
recent map (none when `setTableNames` was never called), followed by one entry per
keyword, followed by two entries per entry of the function catalog. Keyword and function
entries do not accumulate: the index has `T + |keywordPatterns| + 2 * |catalog|` entries,
where `T` counts one entry per table and two per column of that map, and `listFunctions`
has `|catalog|` names. -/
theorem index_shape_in_reachable_states (env : Host) (st : Statics) (calls : List Call) :
    (run env calls (construct env st)).autocompleteApi =
        tableEntries env (lastTables [] calls) ++ keywordEntries env ++
          functionEntries env (functionPatterns env) ∧
      (construct env st).autocompleteApi =
        keywordEntries env ++ functionEntries env (functionPatterns env) ∧
      (∀ (ts : List QualifiedTablesMap) (t : QualifiedTablesMap),
        lastTables [] ((ts ++ [t]).map Call.setTableNames) = t) ∧
      (keywordEntries env).length = keywordPatterns.length ∧
      (functionEntries env (functionPatterns env)).length =
        2 * (functionPatterns env).length ∧
      (run env calls (construct env st)).autocompleteApi.length =
        tableEntryCount (lastTables [] calls) + keywordPatterns.length +
          2 * (functionPatterns env).length ∧
      (run env calls (construct env st)).listFunctions =
        (functionPatterns env).map Prod.fst ∧
      (run env calls (construct env st)).listFunctions.length =
        (functionPatterns env).length := by
  have h := run_autocompleteApi env calls (construct env st) []
    (by rw [construct_autocompleteApi]; rfl) (construct_listFunctions env st)
  refine ⟨h.1, construct_autocompleteApi env st, fun ts t => lastTables_setTableNames [] t ts,
    by simp [keywordEntries], functionEntries_length env _, ?_, h.2, ?_⟩
  · rw [h.1, List.length_append, List.length_append, tableEntries_length,
      functionEntries_length]
    simp [keywordEntries]
  · rw [h.2, List.length_map]

end SqlUiLexer
